import Mathlib

/-!
Shallow embedding of the Risk multiplayer server core (`server.py`).

Python dictionaries (which preserve insertion order) are modelled as
association lists `List (String × α)`; mutation of a shared object inside a
dictionary is modelled by rebuilding the dictionary with the updated entry at
the same position.  Python integers are modelled as `Int` (with `Int.fdiv`
for Python's floor division `//`).  The two sources of randomness
(`random.shuffle` in `start_game`, `random.randint` during territory
distribution, and the Bernoulli draw in `handle_attack`) are passed in as
explicit oracle parameters.
-/

set_option maxHeartbeats 1000000

/-- Mirror of the `Player` dataclass (the `websocket` transport handle is
omitted: it never influences the game logic). -/
structure Player where
  id : String
  name : String
  country : String
  color : String
  army : Int
  reserve : Int
  areas : List String
  bonus : Int
  alive : Bool
deriving Repr, DecidableEq

/-- Mirror of the country dictionaries stored in `GameState.countries`. -/
structure Country where
  name : String
  continent : String
  owner : String
  color : String
  army : Int
  neighbours : List String
deriving Repr, DecidableEq

/-- Mirror of the `GameState` dataclass; `created_at` is kept as an abstract
tick so the record shape matches the source. -/
structure GameState where
  id : String
  players : List (String × Player)
  countries : List Country
  stage : String
  turn : Int
  current_player_id : String
  max_players : Nat
  created_at : Nat
  started : Bool
deriving Repr, DecidableEq

/-- Mirror of `GameManager.__init__`: the two process-wide registries. -/
structure GameManager where
  games : List (String × GameState)
  player_to_game : List (String × String)
deriving Repr, DecidableEq

/-- Python `d[k]` / `d.get(k)`: first entry with the given key. -/
def dictGet {α : Type} (d : List (String × α)) (k : String) : Option α :=
  match d with
  | [] => none
  | (k', v) :: rest => if k' = k then some v else dictGet rest k

/-- Python `d[k] = v`: overwrite in place when the key is present, otherwise
append at the end (dictionaries preserve insertion order). -/
def dictInsert {α : Type} (d : List (String × α)) (k : String) (v : α) :
    List (String × α) :=
  if d.any (fun q => q.1 == k) then
    d.map (fun q => if q.1 = k then (k, v) else q)
  else
    d ++ [(k, v)]

/-- Python `del d[k]`. -/
def dictRemove {α : Type} (d : List (String × α)) (k : String) :
    List (String × α) :=
  match d with
  | [] => []
  | (k', v) :: rest =>
    if k' = k then dictRemove rest k else (k', v) :: dictRemove rest k

/-- The 42-territory template built inside `GameManager.create_game`. -/
def defaultCountries : List Country := [
  ⟨"indonesia", "oceania", "none", "white", 0, ["siam", "western_australia", "new_guinea"]⟩,
  ⟨"new_guinea", "oceania", "none", "white", 0, ["indonesia", "eastern_australia", "western_australia"]⟩,
  ⟨"eastern_australia", "oceania", "none", "white", 0, ["western_australia", "new_guinea"]⟩,
  ⟨"western_australia", "oceania", "none", "white", 0, ["eastern_australia", "new_guinea", "indonesia"]⟩,
  ⟨"ural", "asia", "none", "white", 0, ["ukraine", "siberia", "afghanistan", "china"]⟩,
  ⟨"siberia", "asia", "none", "white", 0, ["ural", "mongolia", "yakutsk", "irkutsk", "china"]⟩,
  ⟨"afghanistan", "asia", "none", "white", 0, ["ukraine", "ural", "middle_east", "china", "india"]⟩,
  ⟨"irkutsk", "asia", "none", "white", 0, ["yakutsk", "siberia", "kamchatka", "mongolia"]⟩,
  ⟨"yakutsk", "asia", "none", "white", 0, ["irkutsk", "siberia", "kamchatka"]⟩,
  ⟨"kamchatka", "asia", "none", "white", 0, ["alaska", "yakutsk", "japan", "irkutsk", "mongolia"]⟩,
  ⟨"middle_east", "asia", "none", "white", 0, ["ukraine", "afghanistan", "india", "egypt", "east_africa", "southern_europe"]⟩,
  ⟨"india", "asia", "none", "white", 0, ["middle_east", "siam", "afghanistan", "china"]⟩,
  ⟨"siam", "asia", "none", "white", 0, ["indonesia", "india", "china"]⟩,
  ⟨"china", "asia", "none", "white", 0, ["ural", "siberia", "afghanistan", "mongolia", "siam", "india"]⟩,
  ⟨"mongolia", "asia", "none", "white", 0, ["irkutsk", "siberia", "kamchatka", "china", "japan"]⟩,
  ⟨"japan", "asia", "none", "white", 0, ["kamchatka", "mongolia"]⟩,
  ⟨"egypt", "africa", "none", "white", 0, ["middle_east", "southern_europe", "north_africa", "east_africa"]⟩,
  ⟨"north_africa", "africa", "none", "white", 0, ["egypt", "southern_europe", "western_europe", "east_africa", "congo", "brazil"]⟩,
  ⟨"east_africa", "africa", "none", "white", 0, ["middle_east", "egypt", "north_africa", "congo", "madagascar", "south_africa"]⟩,
  ⟨"congo", "africa", "none", "white", 0, ["south_africa", "north_africa", "east_africa"]⟩,
  ⟨"south_africa", "africa", "none", "white", 0, ["congo", "madagascar", "east_africa"]⟩,
  ⟨"madagascar", "africa", "none", "white", 0, ["south_africa", "east_africa"]⟩,
  ⟨"brazil", "South America", "none", "white", 0, ["peru", "argentina", "north_africa", "venezuela"]⟩,
  ⟨"peru", "South America", "none", "white", 0, ["brazil", "argentina", "venezuela"]⟩,
  ⟨"argentina", "South America", "none", "white", 0, ["brazil", "peru"]⟩,
  ⟨"venezuela", "South America", "none", "white", 0, ["brazil", "peru", "central_america"]⟩,
  ⟨"iceland", "europe", "none", "white", 0, ["greenland", "uk", "scandinavia"]⟩,
  ⟨"scandinavia", "europe", "none", "white", 0, ["iceland", "uk", "ukraine", "northern_europe"]⟩,
  ⟨"northern_europe", "europe", "none", "white", 0, ["ukraine", "uk", "scandinavia", "southern_europe", "western_europe"]⟩,
  ⟨"western_europe", "europe", "none", "white", 0, ["north_africa", "uk", "northern_europe", "southern_europe"]⟩,
  ⟨"southern_europe", "europe", "none", "white", 0, ["north_africa", "egypt", "northern_europe", "western_europe", "middle_east", "ukraine"]⟩,
  ⟨"uk", "europe", "none", "white", 0, ["western_europe", "iceland", "northern_europe", "scandinavia"]⟩,
  ⟨"ukraine", "europe", "none", "white", 0, ["scandinavia", "ural", "northern_europe", "southern_europe", "afghanistan", "middle_east"]⟩,
  ⟨"greenland", "North America", "none", "white", 0, ["iceland", "quebec", "ontario", "northwest_territory"]⟩,
  ⟨"central_america", "North America", "none", "white", 0, ["venezuela", "eastern_us", "western_us"]⟩,
  ⟨"eastern_us", "North America", "none", "white", 0, ["central_america", "quebec", "ontario", "western_us"]⟩,
  ⟨"western_us", "North America", "none", "white", 0, ["eastern_us", "central_america", "ontario", "alberta"]⟩,
  ⟨"alaska", "North America", "none", "white", 0, ["kamchatka", "alberta", "northwest_territory"]⟩,
  ⟨"alberta", "North America", "none", "white", 0, ["alaska", "western_us", "ontario", "northwest_territory"]⟩,
  ⟨"ontario", "North America", "none", "white", 0, ["greenland", "quebec", "alberta", "western_us", "eastern_us", "northwest_territory"]⟩,
  ⟨"quebec", "North America", "none", "white", 0, ["greenland", "eastern_us", "ontario"]⟩,
  ⟨"northwest_territory", "North America", "none", "white", 0, ["greenland", "alaska", "alberta", "ontario"]⟩]

/-- `GameManager.create_game`; the fresh uuid-derived id and the creation
timestamp are passed in explicitly. -/
def create_game (gm : GameManager) (game_id : String) (max_players : Nat)
    (now : Nat) : GameManager × String :=
  let game_state : GameState :=
    { id := game_id
      players := []
      countries := defaultCountries
      stage := "waiting"
      turn := 1
      current_player_id := ""
      max_players := max_players
      created_at := now
      started := false }
  ({ gm with games := dictInsert gm.games game_id game_state }, game_id)

/-- `GameManager.join_game`. -/
def join_game (gm : GameManager) (game_id : String) (player : Player) :
    GameManager × Bool :=
  match dictGet gm.games game_id with
  | none => (gm, false)
  | some game =>
    if game.max_players ≤ game.players.length ∨ game.started then (gm, false)
    else
      let game' := { game with players := dictInsert game.players player.id player }
      ({ games := dictInsert gm.games game_id game'
         player_to_game := dictInsert gm.player_to_game player.id game_id },
       true)

/-- `GameManager.leave_game`. -/
def leave_game (gm : GameManager) (player_id : String) : GameManager :=
  match dictGet gm.player_to_game player_id with
  | none => gm
  | some game_id =>
    let gm1 :=
      match dictGet gm.games game_id with
      | none => gm
      | some game =>
        let game' := { game with players := dictRemove game.players player_id }
        if game'.players.length = 0 then
          { gm with games := dictRemove gm.games game_id }
        else
          { gm with games := dictInsert gm.games game_id game' }
    { gm1 with player_to_game := dictRemove gm1.player_to_game player_id }

/-- `GameManager.get_game`. -/
def get_game (gm : GameManager) (game_id : String) : Option GameState :=
  dictGet gm.games game_id

/-- `GameManager.get_player_game`. -/
def get_player_game (gm : GameManager) (player_id : String) : Option GameState :=
  match dictGet gm.player_to_game player_id with
  | none => none
  | some game_id => dictGet gm.games game_id

/-- The fixed six-entry palette in `start_game`. -/
def startColors : List String :=
  ["#030f63", "#d6040e", "#d86b04", "#0eb7ae", "#104704", "#c6c617"]

/-- The first loop of `start_game`: assign a palette color by join order and
reset `army`, `reserve`, `bonus`, `alive` for every player.  `i` is the
enumeration index. -/
def setupPlayers : Nat → List (String × Player) → List (String × Player)
  | _, [] => []
  | i, (pid, p) :: rest =>
    (pid, { p with
             color := startColors.getD (i % startColors.length) p.color
             army := 20
             reserve := 20
             bonus := 2
             alive := true }) :: setupPlayers (i + 1) rest

/-- The inner `for country in game.countries: if country["name"] == area: ...
break` of `start_game`: overwrite owner, color and army of the first country
with the given name. -/
def assignArea (cs : List Country) (area owner color : String) (army : Int) :
    List Country :=
  match cs with
  | [] => []
  | c :: rest =>
    if c.name = area then { c with owner := owner, color := color, army := army } :: rest
    else c :: assignArea rest area owner color army

/-- The distribution loop of `start_game`: walk the shuffled territory names,
give the `i`-th one to player `i % n` (join order), write owner/color/army
into the country and mirror the name into the player's `areas`.  `draw i` is
the `random.randint(1, 3)` oracle for the `i`-th assignment. -/
def distribute (draw : Nat → Int) :
    Nat → List String → List (String × Player) → List Country →
    List (String × Player) × List Country
  | _, [], ps, cs => (ps, cs)
  | i, area :: rest, ps, cs =>
    match ps.get? (i % ps.length) with
    | none => distribute draw (i + 1) rest ps cs
    | some (pid, p) =>
      if area ∈ cs.map (fun c => c.name) then
        distribute draw (i + 1) rest
          (ps.set (i % ps.length) (pid, { p with areas := p.areas ++ [area] }))
          (assignArea cs area p.name p.color (draw i))
      else
        distribute draw (i + 1) rest ps cs

/-- `GameManager.start_game`.  `shuffled` is the result of
`random.shuffle(areas)` (callers constrain it to be a permutation of the
session's territory names) and `draw` the stream of `random.randint(1, 3)`
values. -/
def start_game (gm : GameManager) (game_id : String) (shuffled : List String)
    (draw : Nat → Int) : GameManager × Bool :=
  match dictGet gm.games game_id with
  | none => (gm, false)
  | some game =>
    if game.players.length < 2 ∨ game.started then (gm, false)
    else
      let ps1 := setupPlayers 0 game.players
      let current := match ps1 with
        | (pid, _) :: _ => pid
        | [] => game.current_player_id
      let res := distribute draw 0 shuffled ps1 game.countries
      let game' := { game with
                      started := true
                      stage := "fortify"
                      players := res.1
                      countries := res.2
                      current_player_id := current }
      ({ gm with games := dictInsert gm.games game_id game' }, true)

/-- Result dictionary of `handle_attack`; the failure dictionaries carry no
`winner` key, modelled by the empty string. -/
structure AttackResult where
  success : Bool
  winner : String
  message : String
deriving Repr, DecidableEq

/-- The search loop at the top of `handle_attack`: `if name == attacker:
attacker_country = country elif name == defender: defender_country = country`,
keeping list positions so the later in-place mutations can be expressed. -/
def scanGo (a d : String) :
    List Country → Nat → Option (Nat × Country) × Option (Nat × Country) →
    Option (Nat × Country) × Option (Nat × Country)
  | [], _, acc => acc
  | c :: rest, i, (oa, od) =>
    if c.name = a then scanGo a d rest (i + 1) (some (i, c), od)
    else if c.name = d then scanGo a d rest (i + 1) (oa, some (i, c))
    else scanGo a d rest (i + 1) (oa, od)

/-- Locate the attacker and defender countries of `handle_attack`. -/
def scanCountries (a d : String) (cs : List Country) :
    Option (Nat × Country) × Option (Nat × Country) :=
  scanGo a d cs 0 (none, none)

/-- `{"success": False, "message": "Invalid countries"}`. -/
def invalidCountriesResult : AttackResult :=
  ⟨false, "", "Invalid countries"⟩

/-- `{"success": False, "message": "Not enough armies to attack"}`. -/
def notEnoughArmiesResult : AttackResult :=
  ⟨false, "", "Not enough armies to attack"⟩

/-- `handle_attack(game, attacker_name, defender_name, player_id)`.  The
Bernoulli draw `random.random() > 0.4` is the oracle `attackerWins`.  The
`player_id` argument is unused in the source as well. -/
def handle_attack (game : GameState) (attacker_name defender_name : String)
    (attackerWins : Bool) : GameState × AttackResult :=
  match scanCountries attacker_name defender_name game.countries with
  | (none, _) => (game, invalidCountriesResult)
  | (some _, none) => (game, invalidCountriesResult)
  | (some (ia, ca), some (idd, cd)) =>
    if ca.army ≤ 1 then (game, notEnoughArmiesResult)
    else if attackerWins then
      let old_owner := cd.owner
      let ps' := game.players.map (fun q =>
        if q.2.name = old_owner ∧ defender_name ∈ q.2.areas then
          (q.1, { q.2 with areas := q.2.areas.erase defender_name })
        else if q.2.name = ca.owner then
          (q.1, { q.2 with areas := q.2.areas ++ [defender_name] })
        else q)
      let total := ca.army + cd.army
      let newAttackerArmy := max 1 (Int.fdiv total 2)
      let cs' := (game.countries.set ia { ca with army := newAttackerArmy }).set idd
        { cd with owner := ca.owner, color := ca.color, army := total - newAttackerArmy }
      ({ game with players := ps', countries := cs' },
       ⟨true, "attacker", attacker_name ++ " conquered " ++ defender_name⟩)
    else
      let cs' := (game.countries.set ia { ca with army := max 0 (ca.army - 2) }).set idd
        { cd with army := max 1 cd.army }
      ({ game with countries := cs' },
       ⟨true, "defender", defender_name ++ " defended successfully"⟩)

/-- The `attack` branch of `handle_message`, at the session level: only the
current player triggers combat, and an `attack_result` event is broadcast. -/
def attack_command (game : GameState) (client_id attacker_name defender_name : String)
    (attackerWins : Bool) : GameState × List String :=
  if game.current_player_id = client_id then
    ((handle_attack game attacker_name defender_name attackerWins).1, ["attack_result"])
  else (game, [])

/-- The `end_turn` branch of `handle_message`, at the session level.
`none` models the `ValueError` Python would raise were the acting client
missing from `players` (`player_ids.index`). -/
def end_turn (game : GameState) (client_id : String) :
    Option (GameState × List String) :=
  if game.current_player_id = client_id then
    let player_ids := game.players.map Prod.fst
    match player_ids.findIdx? (fun s => s == client_id) with
    | none => none
    | some current_index =>
      some ({ game with
               current_player_id :=
                 player_ids.getD ((current_index + 1) % player_ids.length) client_id },
            ["turn_ended"])
  else some (game, [])

/-- The `place_army` branch of `handle_message`, at the session level.
`none` models the `KeyError` Python would raise were the acting client
missing from `players`. -/
def place_army (game : GameState) (client_id country_name : String)
    (amount : Int) : Option (GameState × List String) :=
  if game.current_player_id = client_id then
    match dictGet game.players client_id with
    | none => none
    | some player =>
      if amount ≤ player.reserve then
        match game.countries.findIdx?
            (fun c => c.name == country_name && c.owner == player.name) with
        | some j =>
          match game.countries.get? j with
          | some c =>
            some ({ game with
                     countries := game.countries.set j { c with army := c.army + amount }
                     players := dictInsert game.players client_id
                       { player with reserve := player.reserve - amount } },
                  ["army_placed"])
          | none => none
        | none => some (game, ["army_placed"])
      else some (game, [])
  else some (game, [])

/-- Sum of the sizes of all players' `areas` lists (the quantity the spec
claims is conserved at 42). -/
def sumAreas (ps : List (String × Player)) : Nat :=
  (ps.map (fun q => q.2.areas.length)).sum

/-- Multiset union of all players' `areas` lists. -/
def areasMultiset (ps : List (String × Player)) : Multiset String :=
  (ps.map (fun q => (q.2.areas : Multiset String))).sum

/-- Names of a country list, in order. -/
def countryNames (cs : List Country) : List String :=
  cs.map (fun c => c.name)

/-- Display names of the players of a session, in join order. -/
def playerNameList (ps : List (String × Player)) : List String :=
  ps.map (fun q => q.2.name)

/-- Forget the `areas` field of a keyed player (used to state that the
distribution loop touches nothing but `areas`). -/
def stripAreas (q : String × Player) : String × Player :=
  (q.1, { q.2 with areas := [] })

/-- Claim C1 as stated: every player's `areas` lists exactly the territories
whose `owner` equals the player's `id`, without duplicates. -/
def playerAreasOwnedById (g : GameState) : Prop :=
  ∀ q ∈ g.players, q.2.areas.Nodup ∧
    (∀ x ∈ q.2.areas, ∃ c ∈ g.countries, c.name = x ∧ c.owner = q.2.id) ∧
    (∀ c ∈ g.countries, c.owner = q.2.id → c.name ∈ q.2.areas)

/-- The ownership correspondence the code actually maintains: `owner` fields
hold the owning player's display `name`. -/
def playerAreasOwnedByName (g : GameState) : Prop :=
  ∀ q ∈ g.players, q.2.areas.Nodup ∧
    (∀ x ∈ q.2.areas, ∃ c ∈ g.countries, c.name = x ∧ c.owner = q.2.name) ∧
    (∀ c ∈ g.countries, c.owner = q.2.name → c.name ∈ q.2.areas)

/-- Loop invariant for the distribution phase of `start_game`: `pending` are
the shuffled names not yet handed out; every player's `areas` is in exact
correspondence with the already-assigned countries carrying their name. -/
def InvP (pending : List String) (ps : List (String × Player))
    (cs : List Country) : Prop :=
  ∀ j q, ps.get? j = some q →
    q.2.areas.Nodup ∧
    (∀ x ∈ q.2.areas, ∃ c ∈ cs, c.name = x ∧ c.owner = q.2.name ∧ c.name ∉ pending) ∧
    (∀ c ∈ cs, c.owner = q.2.name → c.name ∉ pending → c.name ∈ q.2.areas)

/-- Territory `x` has been handed to the player at join-order index `k`, its
country record carrying that player's name and color and army value `v`. -/
def AssignedTo (ps : List (String × Player)) (cs : List Country)
    (k : Nat) (x : String) (v : Int) : Prop :=
  ∃ p : Player, (ps.get? k).map Prod.snd = some p ∧ x ∈ p.areas ∧
    ∃ c ∈ cs, c.name = x ∧ c.owner = p.name ∧ c.color = p.color ∧ c.army = v

/-- Post-state contract of a successful `start_game` on a pre-state `game`
whose territory list is the 42-entry template: colors cycle through the
palette by join order, every player is reset to `army=20, reserve=20,
bonus=2, alive`, the first joiner holds the turn, the `j`-th shuffled
territory goes to player `j mod n` with its owner/color copied from that
player and an army drawn from `{1, 2, 3}`, and the players' `areas` lists
together carry each template name exactly once. -/
def startPost (g' : GameState) (shuffled : List String) (draw : Nat → Int) : Prop :=
  g'.started = true ∧ g'.stage = "fortify" ∧
  (∀ q ∈ g'.players,
    q.2.army = 20 ∧ q.2.reserve = 20 ∧ q.2.bonus = 2 ∧ q.2.alive = true) ∧
  (∀ j q, g'.players.get? j = some q →
    startColors.get? (j % startColors.length) = some q.2.color) ∧
  (∀ q, g'.players.get? 0 = some q → g'.current_player_id = q.1) ∧
  (∀ j, ∀ h : j < shuffled.length,
    ∃ p : Player, (g'.players.get? (j % g'.players.length)).map Prod.snd = some p ∧
      shuffled.get ⟨j, h⟩ ∈ p.areas ∧
      ∃ c ∈ g'.countries, c.name = shuffled.get ⟨j, h⟩ ∧ c.owner = p.name ∧
        c.color = p.color ∧ c.army = draw j ∧ 1 ≤ draw j ∧ draw j ≤ 3) ∧
  areasMultiset g'.players = (countryNames defaultCountries : Multiset String)

/-- A fresh two-player test session on the template board (player ids differ
from display names, as in the real server where ids are uuids). -/
def mkTestPlayer (pid nm : String) : Player :=
  ⟨pid, nm, "chosen", "#030f63", 20, 20, [], 2, true⟩

/-- Unstarted template session holding Alice and Bob. -/
def testGame0 : GameState :=
  { id := "g"
    players := [("p0", mkTestPlayer "p0" "Alice"), ("p1", mkTestPlayer "p1" "Bob")]
    countries := defaultCountries
    stage := "waiting"
    turn := 1
    current_player_id := ""
    max_players := 6
    created_at := 0
    started := false }

/-- Registry holding `testGame0`. -/
def testGM0 : GameManager :=
  { games := [("g", testGame0)], player_to_game := [("p0", "g"), ("p1", "g")] }

/-- Identity shuffle: the template names in their original order (a valid
permutation of themselves). -/
def testShuffle : List String := countryNames defaultCountries

/-- Fallback value for reading a game back out of the registry in the
concrete test scenarios. -/
def emptyGame : GameState :=
  { id := "", players := [], countries := [], stage := "", turn := 0,
    current_player_id := "", max_players := 0, created_at := 0, started := false }

/-- The session after `start_game` on `testGM0` with the identity shuffle and
every `randint` draw equal to 2. -/
def testG1 : GameState :=
  (dictGet (start_game testGM0 "g" testShuffle (fun _ => 2)).1.games "g").getD emptyGame

/-- `testG1` after Alice (the current player) attacks her own
`eastern_australia` from her own `indonesia` and the Bernoulli draw favors
the attacker. -/
def testG2 : GameState :=
  (attack_command testG1 "p0" "indonesia" "eastern_australia" true).1

/-- Countries and players of the small hand-built combat sessions. -/
def soloC1 : Country := ⟨"c1", "k", "Solo", "#d6040e", 5, ["c2"]⟩

/-- Second country of the one-player session. -/
def soloC2 : Country := ⟨"c2", "k", "Solo", "#d6040e", 3, ["c1"]⟩

/-- Attacker country of the two-player duel (army 5). -/
def duelC1 : Country := ⟨"c1", "k", "Red", "#d6040e", 5, ["c2"]⟩

/-- Defender country of the two-player duel (army 3). -/
def duelC2 : Country := ⟨"c2", "k", "Blue", "#030f63", 3, ["c1"]⟩

/-- The lone player owning both countries of `selfAttackGame`. -/
def soloPlayer : Player := ⟨"q0", "Solo", "chosen", "#d6040e", 20, 10, ["c1", "c2"], 2, true⟩

/-- Attacking player of `duelGame`. -/
def redPlayer : Player := ⟨"r0", "Red", "chosen", "#d6040e", 20, 10, ["c1"], 2, true⟩

/-- Defending player of `duelGame`. -/
def bluePlayer : Player := ⟨"r1", "Blue", "chosen", "#030f63", 20, 10, ["c2"], 2, true⟩

/-- Tiny session used for the combat counterexamples: one player owning both
countries. -/
def selfAttackGame : GameState :=
  { id := "s"
    players := [("q0", soloPlayer)]
    countries := [soloC1, soloC2]
    stage := "battle"
    turn := 1
    current_player_id := "q0"
    max_players := 6
    created_at := 0
    started := true }

/-- Two-player two-country session used for the combat witnesses
(attacker army 5 versus defender army 3, the spec's worked example). -/
def duelGame : GameState :=
  { id := "d"
    players := [("r0", redPlayer), ("r1", bluePlayer)]
    countries := [duelC1, duelC2]
    stage := "battle"
    turn := 1
    current_player_id := "r0"
    max_players := 6
    created_at := 0
    started := true }

/-- Variant of `selfAttackGame` whose attacker country holds a single army
(used for the precondition counterexample and witness). -/
def lowArmyGame : GameState :=
  { selfAttackGame with countries := [{ soloC1 with army := 1 }, soloC2] }

/-- The per-player `areas` update performed by the attacker-win branch of
`handle_attack` (`dOwn` is the defender territory's pre-attack owner, `aOwn`
the attacker territory's owner, `d` the defender territory's name). -/
def attackAreasUpdate (dOwn aOwn d : String) (q : String × Player) :
    String × Player :=
  if q.2.name = dOwn ∧ d ∈ q.2.areas then
    (q.1, { q.2 with areas := q.2.areas.erase d })
  else if q.2.name = aOwn then
    (q.1, { q.2 with areas := q.2.areas ++ [d] })
  else q

-- ### Generic list helpers

theorem get?_some_lt {α : Type} {l : List α} {n : Nat} {x : α}
    (h : l.get? n = some x) : n < l.length := by
  by_contra hn
  rw [List.get?_eq_none.2 (Nat.le_of_not_lt hn)] at h
  exact Option.noConfusion h

theorem set_get?_self {α : Type} :
    ∀ (l : List α) (m : Nat) (x : α), l.get? m = some x → l.set m x = l
  | [], _, _, h => by cases h
  | a :: l, 0, x, h => by
    simp only [List.get?] at h
    simp [Option.some_inj.1 h]
  | a :: l, m + 1, x, h => by
    simp only [List.get?] at h
    simp [set_get?_self l m x h]

theorem get?_same_of_nodup {α : Type} {l : List α} {i j : Nat} {x : α}
    (hnd : l.Nodup) (hi : l.get? i = some x) (hj : l.get? j = some x) : i = j := by
  have hlt : i < l.length := get?_some_lt hi
  refine List.getElem?_inj hlt hnd ?_
  rw [← List.get?_eq_getElem?, ← List.get?_eq_getElem?, hi, hj]

-- Distinct positions in a list whose image under `f` has no duplicates give
-- distinct `f`-values.
theorem map_nodup_get?_ne {α β : Type} {l : List α} {f : α → β} {i j : Nat}
    {x y : α} (hnd : (l.map f).Nodup) (hi : l.get? i = some x)
    (hj : l.get? j = some y) (hij : i ≠ j) : f x ≠ f y := by
  intro he
  have h1 : (l.map f).get? i = some (f x) := by rw [List.get?_map, hi]; rfl
  have h2 : (l.map f).get? j = some (f x) := by rw [List.get?_map, hj]; simp [he]
  exact hij (get?_same_of_nodup hnd h1 h2)

-- Two members of a list with duplicate-free names and the same name coincide.
theorem mem_name_eq_of_nodup {cs : List Country} {c₁ c₂ : Country}
    (hnd : (cs.map (fun c => c.name)).Nodup) (h₁ : c₁ ∈ cs) (h₂ : c₂ ∈ cs)
    (he : c₁.name = c₂.name) : c₁ = c₂ := by
  rcases List.mem_iff_get?.1 h₁ with ⟨i, hi⟩
  rcases List.mem_iff_get?.1 h₂ with ⟨j, hj⟩
  by_cases hij : i = j
  · rw [hij, hj] at hi
    exact Option.some_inj.1 hi.symm
  · exact absurd he (map_nodup_get?_ne hnd hi hj hij)

theorem nodup_not_mem_erase {l : List String} {d : String} (hnd : l.Nodup) :
    d ∉ l.erase d := by
  intro hmem
  have hc := List.count_erase_self d l
  have h1 : l.count d ≤ 1 := List.nodup_iff_count_le_one.1 hnd d
  have h2 : 1 ≤ (l.erase d).count d := List.one_le_count_iff.2 hmem
  omega

-- ### `assignArea` lemmas

theorem assignArea_map_name (cs : List Country) (a ow col : String) (v : Int) :
    (assignArea cs a ow col v).map (fun c => c.name) = cs.map (fun c => c.name) := by
  induction cs with
  | nil => rfl
  | cons c rest ih =>
    by_cases h : c.name = a
    · simp [assignArea, h]
    · simp [assignArea, h, ih]

theorem mem_assignArea_of_ne {cs : List Country} {c : Country} {a : String}
    (ow col : String) (v : Int) (hm : c ∈ cs) (hne : c.name ≠ a) :
    c ∈ assignArea cs a ow col v := by
  induction cs with
  | nil => cases hm
  | cons c' rest ih =>
    rcases List.mem_cons.1 hm with rfl | hm
    · simp [assignArea, hne]
    · by_cases h : c'.name = a
      · simp [assignArea, h, hm]
      · simp only [assignArea, if_neg h]
        exact List.mem_cons.2 (Or.inr (ih hm))

theorem of_mem_assignArea_ne {cs : List Country} {c : Country} {a ow col : String}
    {v : Int} (hm : c ∈ assignArea cs a ow col v) (hne : c.name ≠ a) : c ∈ cs := by
  induction cs with
  | nil => cases hm
  | cons c' rest ih =>
    by_cases h : c'.name = a
    · simp only [assignArea, if_pos h] at hm
      rcases List.mem_cons.1 hm with rfl | hm
      · exact absurd h hne
      · exact List.mem_cons.2 (Or.inr hm)
    · simp only [assignArea, if_neg h] at hm
      rcases List.mem_cons.1 hm with rfl | hm
      · exact List.mem_cons.2 (Or.inl rfl)
      · exact List.mem_cons.2 (Or.inr (ih hm))

theorem exists_mem_assignArea {cs : List Country} {a : String} (ow col : String)
    (v : Int) (h : a ∈ cs.map (fun c => c.name)) :
    ∃ c ∈ cs, c.name = a ∧
      { c with owner := ow, color := col, army := v } ∈ assignArea cs a ow col v := by
  induction cs with
  | nil => simp at h
  | cons c' rest ih =>
    by_cases hn : c'.name = a
    · exact ⟨c', List.mem_cons.2 (Or.inl rfl), hn, by simp [assignArea, hn]⟩
    · have h' : a ∈ rest.map (fun c => c.name) := by
        rcases List.mem_map.1 h with ⟨c'', hc'', he⟩
        rcases List.mem_cons.1 hc'' with rfl | hc''
        · exact absurd he hn
        · rw [← he]
          exact List.mem_map_of_mem (fun c => c.name) hc''
      rcases ih h' with ⟨c, hc, hcn, hmem⟩
      exact ⟨c, List.mem_cons.2 (Or.inr hc), hcn, by
        simp only [assignArea, if_neg hn]
        exact List.mem_cons.2 (Or.inr hmem)⟩

theorem assignArea_fields_of_nodup {cs : List Country} {a ow col : String}
    {v : Int} {c' : Country} (hnd : (cs.map (fun c => c.name)).Nodup)
    (hm : c' ∈ assignArea cs a ow col v) (hn : c'.name = a) :
    c'.owner = ow ∧ c'.color = col ∧ c'.army = v := by
  induction cs with
  | nil => cases hm
  | cons c rest ih =>
    simp only [List.map_cons, List.nodup_cons] at hnd
    by_cases h : c.name = a
    · simp only [assignArea, if_pos h] at hm
      rcases List.mem_cons.1 hm with rfl | hm
      · exact ⟨rfl, rfl, rfl⟩
      · refine absurd ?_ hnd.1
        rw [h, ← hn]
        exact List.mem_map_of_mem (fun c => c.name) hm
    · simp only [assignArea, if_neg h] at hm
      rcases List.mem_cons.1 hm with rfl | hm
      · exact absurd hn h
      · exact ih hnd.2 hm

-- ### `setupPlayers` lemmas

theorem setupPlayers_get? :
    ∀ (ps : List (String × Player)) (i j : Nat),
      (setupPlayers i ps).get? j = (ps.get? j).map (fun q =>
        (q.1, { q.2 with
                 color := startColors.getD ((i + j) % startColors.length) q.2.color
                 army := 20, reserve := 20, bonus := 2, alive := true }))
  | [], i, j => by simp [setupPlayers]
  | (pid, p) :: rest, i, 0 => by simp [setupPlayers]
  | (pid, p) :: rest, i, j + 1 => by
    have := setupPlayers_get? rest (i + 1) j
    simp only [setupPlayers, List.get?]
    rw [this]
    have harith : i + 1 + j = i + (j + 1) := by omega
    rw [harith]

theorem setupPlayers_length : ∀ (ps : List (String × Player)) (i : Nat),
    (setupPlayers i ps).length = ps.length
  | [], _ => rfl
  | (pid, p) :: rest, i => by
    simp [setupPlayers, setupPlayers_length rest (i + 1)]

-- ### `distribute` lemmas

theorem distribute_length (draw : Nat → Int) :
    ∀ (areas : List String) (i : Nat) (ps : List (String × Player))
      (cs : List Country), (distribute draw i areas ps cs).1.length = ps.length
  | [], _, _, _ => rfl
  | area :: rest, i, ps, cs => by
    simp only [distribute]
    cases hg : ps.get? (i % ps.length) with
    | none => exact distribute_length draw rest (i + 1) ps cs
    | some q =>
      by_cases hmem : area ∈ cs.map (fun c => c.name)
      · simp only [if_pos hmem]
        rw [distribute_length draw rest (i + 1) _ _, List.length_set]
      · simp only [if_neg hmem]
        exact distribute_length draw rest (i + 1) ps cs

theorem distribute_map_name (draw : Nat → Int) :
    ∀ (areas : List String) (i : Nat) (ps : List (String × Player))
      (cs : List Country),
      (distribute draw i areas ps cs).2.map (fun c => c.name) = cs.map (fun c => c.name)
  | [], _, _, _ => rfl
  | area :: rest, i, ps, cs => by
    simp only [distribute]
    cases hg : ps.get? (i % ps.length) with
    | none => exact distribute_map_name draw rest (i + 1) ps cs
    | some q =>
      by_cases hmem : area ∈ cs.map (fun c => c.name)
      · simp only [if_pos hmem]
        rw [distribute_map_name draw rest (i + 1) _ _, assignArea_map_name]
      · simp only [if_neg hmem]
        exact distribute_map_name draw rest (i + 1) ps cs

theorem distribute_stripAreas (draw : Nat → Int) :
    ∀ (areas : List String) (i : Nat) (ps : List (String × Player))
      (cs : List Country),
      (distribute draw i areas ps cs).1.map stripAreas = ps.map stripAreas
  | [], _, _, _ => rfl
  | area :: rest, i, ps, cs => by
    simp only [distribute]
    cases hg : ps.get? (i % ps.length) with
    | none => exact distribute_stripAreas draw rest (i + 1) ps cs
    | some q =>
      by_cases hmem : area ∈ cs.map (fun c => c.name)
      · simp only [if_pos hmem]
        rw [distribute_stripAreas draw rest (i + 1) _ _, List.map_set]
        have : stripAreas (q.1, { q.2 with areas := q.2.areas ++ [area] }) = stripAreas q := rfl
        rw [this]
        refine set_get?_self _ _ _ ?_
        rw [List.get?_map, hg]
        rfl
      · simp only [if_neg hmem]
        exact distribute_stripAreas draw rest (i + 1) ps cs

-- Updating one player's `areas` by appending one name adds exactly that name
-- to the multiset union of all players' areas.
theorem areasMultiset_set_append :
    ∀ (ps : List (String × Player)) (m : Nat) (q : String × Player) (a : String),
      ps.get? m = some q →
      areasMultiset (ps.set m (q.1, { q.2 with areas := q.2.areas ++ [a] })) =
        areasMultiset ps + {a}
  | [], m, q, a, h => by cases h
  | p :: rest, 0, q, a, h => by
    have hq : p = q := Option.some_inj.1 h
    subst hq
    simp only [List.set, areasMultiset, List.map_cons, List.sum_cons]
    rw [← Multiset.coe_add]
    change ((p.2.areas : Multiset String) + ([a] : List String)) + _ = _
    rw [Multiset.coe_singleton]
    exact add_right_comm _ _ _
  | p :: rest, m + 1, q, a, h => by
    simp only [List.get?] at h
    simp only [List.set, areasMultiset, List.map_cons, List.sum_cons]
    have ih := areasMultiset_set_append rest m q a h
    simp only [areasMultiset] at ih
    rw [ih, add_assoc]

theorem distribute_areasMultiset (draw : Nat → Int) :
    ∀ (areas : List String) (i : Nat) (ps : List (String × Player))
      (cs : List Country), ps ≠ [] →
      (∀ x ∈ areas, x ∈ cs.map (fun c => c.name)) →
      areasMultiset (distribute draw i areas ps cs).1 =
        areasMultiset ps + (areas : Multiset String)
  | [], _, _, _, _, _ => by simp [distribute]
  | area :: rest, i, ps, cs, hps, hsub => by
    simp only [distribute]
    cases hg : ps.get? (i % ps.length) with
    | none =>
      exfalso
      have hlen : 0 < ps.length := List.length_pos.2 hps
      have := List.get?_eq_none.1 hg
      have := Nat.mod_lt i hlen
      omega
    | some q =>
      have hmem : area ∈ cs.map (fun c => c.name) := hsub area (List.mem_cons_self _ _)
      simp only [if_pos hmem]
      have hsub' : ∀ x ∈ rest, x ∈ (assignArea cs area q.2.name q.2.color (draw i)).map
          (fun c => c.name) := by
        intro x hx
        rw [assignArea_map_name]
        exact hsub x (List.mem_cons_of_mem _ hx)
      have hps' : ps.set (i % ps.length) (q.1, { q.2 with areas := q.2.areas ++ [area] }) ≠ [] := by
        intro hnil
        have := List.length_set ps (i % ps.length)
          (q.1, { q.2 with areas := q.2.areas ++ [area] })
        rw [hnil] at this
        exact hps (List.length_eq_zero.1 this.symm)
      rw [distribute_areasMultiset draw rest (i + 1) _ _ hps' hsub']
      rw [areasMultiset_set_append ps (i % ps.length) q area hg]
      have : (area :: rest : Multiset String) = {area} + (rest : Multiset String) := by
        rw [← Multiset.coe_singleton, Multiset.coe_add]
        rfl
      rw [this, add_assoc]

-- Once a territory has been handed out, the rest of the distribution loop
-- never disturbs that assignment (it only appends to other areas lists and
-- writes countries with different names).
theorem distribute_preserves_assigned (draw : Nat → Int) :
    ∀ (areas : List String) (i : Nat) (ps : List (String × Player))
      (cs : List Country) (k : Nat) (x : String) (v : Int),
      x ∉ areas → AssignedTo ps cs k x v →
      AssignedTo (distribute draw i areas ps cs).1
        (distribute draw i areas ps cs).2 k x v
  | [], _, _, _, _, _, _, _, h => h
  | area :: rest, i, ps, cs, k, x, v, hx, h => by
    have hxr : x ∉ rest := fun hm => hx (List.mem_cons_of_mem _ hm)
    have hxa : x ≠ area := fun he => hx (he ▸ List.mem_cons_self _ _)
    simp only [distribute]
    cases hg : ps.get? (i % ps.length) with
    | none => exact distribute_preserves_assigned draw rest (i + 1) ps cs k x v hxr h
    | some q =>
      by_cases hmem : area ∈ cs.map (fun c => c.name)
      · simp only [if_pos hmem]
        refine distribute_preserves_assigned draw rest (i + 1) _ _ k x v hxr ?_
        obtain ⟨p, hp, hxp, c, hc, hcn, hco, hcc, hca⟩ := h
        have hcs1 : c ∈ assignArea cs area q.2.name q.2.color (draw i) :=
          mem_assignArea_of_ne _ _ _ hc (by rw [hcn]; exact hxa)
        by_cases hk : i % ps.length = k
        · have hpq : p = q.2 := by
            rw [hk] at hg
            rw [hg] at hp
            exact Option.some_inj.1 hp.symm
          refine ⟨{ q.2 with areas := q.2.areas ++ [area] }, ?_, ?_, c, hcs1, hcn, ?_, ?_, hca⟩
          · rw [← hk, List.get?_set_eq_of_lt _ (get?_some_lt hg)]
            rfl
          · exact List.mem_append.2 (Or.inl (hpq ▸ hxp))
          · rw [hco, hpq]
          · rw [hcc, hpq]
        · refine ⟨p, ?_, hxp, c, hcs1, hcn, hco, hcc, hca⟩
          rw [List.get?_set_ne _ _ hk]
          exact hp
      · simp only [if_neg hmem]
        exact distribute_preserves_assigned draw rest (i + 1) ps cs k x v hxr h

-- Round-robin distribution: the `j`-th pending territory name is handed to
-- the player at join-order index `(i + j) % n`, with owner, color and army
-- written as the source does.
theorem distribute_assigns (draw : Nat → Int) :
    ∀ (areas : List String) (i : Nat) (ps : List (String × Player))
      (cs : List Country),
      areas.Nodup → (∀ y ∈ areas, y ∈ cs.map (fun c => c.name)) → ps ≠ [] →
      ∀ j, ∀ h : j < areas.length,
        AssignedTo (distribute draw i areas ps cs).1
          (distribute draw i areas ps cs).2
          ((i + j) % ps.length) (areas.get ⟨j, h⟩) (draw (i + j))
  | [], _, _, _, _, _, _, j, h => absurd h (Nat.not_lt_zero j)
  | area :: rest, i, ps, cs, hnd, hsub, hps, j, h => by
    have hlen : 0 < ps.length := List.length_pos.2 hps
    simp only [distribute]
    cases hg : ps.get? (i % ps.length) with
    | none =>
      exfalso
      have := List.get?_eq_none.1 hg
      have := Nat.mod_lt i hlen
      omega
    | some q =>
      have hmem : area ∈ cs.map (fun c => c.name) := hsub area (List.mem_cons_self _ _)
      simp only [if_pos hmem]
      simp only [List.nodup_cons] at hnd
      have hsub' : ∀ y ∈ rest, y ∈ (assignArea cs area q.2.name q.2.color (draw i)).map
          (fun c => c.name) := by
        intro y hy
        rw [assignArea_map_name]
        exact hsub y (List.mem_cons_of_mem _ hy)
      have hps' : ps.set (i % ps.length) (q.1, { q.2 with areas := q.2.areas ++ [area] }) ≠ [] := by
        intro hnil
        have hl := List.length_set ps (i % ps.length)
          (q.1, { q.2 with areas := q.2.areas ++ [area] })
        rw [hnil] at hl
        exact hps (List.length_eq_zero.1 hl.symm)
      match j with
      | 0 =>
        have hstep : AssignedTo
            (ps.set (i % ps.length) (q.1, { q.2 with areas := q.2.areas ++ [area] }))
            (assignArea cs area q.2.name q.2.color (draw i))
            (i % ps.length) area (draw i) := by
          obtain ⟨c, hc, hcn, hmm⟩ := exists_mem_assignArea q.2.name q.2.color (draw i) hmem
          refine ⟨{ q.2 with areas := q.2.areas ++ [area] }, ?_, ?_,
            { c with owner := q.2.name, color := q.2.color, army := draw i }, hmm, hcn, rfl, rfl, rfl⟩
          · rw [List.get?_set_eq_of_lt _ (Nat.mod_lt i hlen)]
            rfl
          · exact List.mem_append.2 (Or.inr (List.mem_singleton.2 rfl))
        have := distribute_preserves_assigned draw rest (i + 1) _ _ (i % ps.length)
          area (draw i) hnd.1 hstep
        simpa using this
      | j' + 1 =>
        have h' : j' < rest.length := by
          simp only [List.length_cons] at h
          omega
        have := distribute_assigns draw rest (i + 1) _ _ hnd.2 hsub' hps' j' h'
        have harith : i + 1 + j' = i + (j' + 1) := by omega
        rw [harith, List.length_set] at this
        simpa using this

-- The distribution loop establishes the areas/ownership correspondence: once
-- no names are pending, every player's list matches exactly the countries
-- written with that player's name.
theorem distribute_InvP (draw : Nat → Int) :
    ∀ (areas : List String) (i : Nat) (ps : List (String × Player))
      (cs : List Country),
      areas.Nodup →
      (∀ y ∈ areas, y ∈ cs.map (fun c => c.name)) →
      (cs.map (fun c => c.name)).Nodup →
      (ps.map (fun q => q.2.name)).Nodup →
      InvP areas ps cs →
      InvP [] (distribute draw i areas ps cs).1 (distribute draw i areas ps cs).2
  | [], _, _, _, _, _, _, _, hInv => hInv
  | area :: rest, i, ps, cs, hnd, hsub, hndC, hndN, hInv => by
    simp only [List.nodup_cons] at hnd
    simp only [distribute]
    cases hg : ps.get? (i % ps.length) with
    | none =>
      have hpsnil : ps = [] := by
        cases hps : ps with
        | nil => rfl
        | cons p rest' =>
          exfalso
          rw [hps] at hg
          have h1 := List.get?_eq_none.1 hg
          have h2 : 0 < (p :: rest').length := by simp
          have := Nat.mod_lt i h2
          omega
      subst hpsnil
      refine distribute_InvP draw rest (i + 1) [] cs hnd.2
        (fun y hy => hsub y (List.mem_cons_of_mem _ hy)) hndC (by simp) ?_
      intro j q hq
      simp at hq
    | some q =>
      have hmem : area ∈ cs.map (fun c => c.name) := hsub area (List.mem_cons_self _ _)
      simp only [if_pos hmem]
      have hm_lt : i % ps.length < ps.length := get?_some_lt hg
      have hstep : InvP rest
          (ps.set (i % ps.length) (q.1, { q.2 with areas := q.2.areas ++ [area] }))
          (assignArea cs area q.2.name q.2.color (draw i)) := by
        intro j q' hq'
        by_cases hj : j = i % ps.length
        · subst hj
          rw [List.get?_set_eq_of_lt _ hm_lt] at hq'
          have hq'' := Option.some_inj.1 hq'
          subst hq''
          obtain ⟨hnd0, hfwd0, hbwd0⟩ := hInv _ q hg
          have harea_not : area ∉ q.2.areas := by
            intro har
            obtain ⟨c, hc, hcn, hco, hnp⟩ := hfwd0 area har
            exact hnp (hcn ▸ List.mem_cons_self area rest)
          refine ⟨?_, ?_, ?_⟩
          · refine List.Nodup.append hnd0 (List.nodup_singleton area) ?_
            intro x hx hxa
            rw [List.mem_singleton.1 hxa] at hx
            exact harea_not hx
          · intro x hx
            rcases List.mem_append.1 hx with hx | hx
            · obtain ⟨c, hc, hcn, hco, hnp⟩ := hfwd0 x hx
              have hcna : c.name ≠ area := fun he => hnp (he ▸ List.mem_cons_self area rest)
              refine ⟨c, mem_assignArea_of_ne _ _ _ hc hcna, hcn, hco, ?_⟩
              exact fun hm => hnp (List.mem_cons_of_mem _ hm)
            · rw [List.mem_singleton.1 hx]
              obtain ⟨c, hc, hcn, hmm⟩ := exists_mem_assignArea q.2.name q.2.color (draw i) hmem
              exact ⟨{ c with owner := q.2.name, color := q.2.color, army := draw i },
                hmm, hcn, rfl, hcn ▸ hnd.1⟩
          · intro c' hc' howner hnr
            by_cases hcn : c'.name = area
            · exact List.mem_append.2 (Or.inr (List.mem_singleton.2 hcn))
            · have hcs : c' ∈ cs := of_mem_assignArea_ne hc' hcn
              have hnar : c'.name ∉ area :: rest := by
                intro hm
                rcases List.mem_cons.1 hm with hm | hm
                · exact hcn hm
                · exact hnr hm
              exact List.mem_append.2 (Or.inl (hbwd0 c' hcs howner hnar))
        · rw [List.get?_set_ne _ _ (Ne.symm hj)] at hq'
          obtain ⟨hnd0, hfwd0, hbwd0⟩ := hInv j q' hq'
          refine ⟨hnd0, ?_, ?_⟩
          · intro x hx
            obtain ⟨c, hc, hcn, hco, hnp⟩ := hfwd0 x hx
            have hcna : c.name ≠ area := fun he => hnp (he ▸ List.mem_cons_self area rest)
            refine ⟨c, mem_assignArea_of_ne _ _ _ hc hcna, hcn, hco, ?_⟩
            exact fun hm => hnp (List.mem_cons_of_mem _ hm)
          · intro c' hc' howner hnr
            by_cases hcn : c'.name = area
            · exfalso
              have hfields := assignArea_fields_of_nodup hndC hc' hcn
              have hne : q'.2.name ≠ q.2.name :=
                map_nodup_get?_ne (f := fun q => q.2.name) hndN hq' hg hj
              exact hne (by rw [← howner, hfields.1])
            · have hcs : c' ∈ cs := of_mem_assignArea_ne hc' hcn
              have hnar : c'.name ∉ area :: rest := by
                intro hm
                rcases List.mem_cons.1 hm with hm | hm
                · exact hcn hm
                · exact hnr hm
              exact hbwd0 c' hcs howner hnar
      have hndN' : ((ps.set (i % ps.length)
          (q.1, { q.2 with areas := q.2.areas ++ [area] })).map
            (fun q => q.2.name)).Nodup := by
        have heq : (ps.set (i % ps.length)
            (q.1, { q.2 with areas := q.2.areas ++ [area] })).map (fun q => q.2.name) =
            ps.map (fun q => q.2.name) := by
          rw [List.map_set]
          refine set_get?_self _ _ _ ?_
          rw [List.get?_map, hg]
          rfl
        rw [heq]
        exact hndN
      have hsub' : ∀ y ∈ rest, y ∈ (assignArea cs area q.2.name q.2.color (draw i)).map
          (fun c => c.name) := by
        intro y hy
        rw [assignArea_map_name]
        exact hsub y (List.mem_cons_of_mem _ hy)
      have hndC' : ((assignArea cs area q.2.name q.2.color (draw i)).map
          (fun c => c.name)).Nodup := by
        rw [assignArea_map_name]
        exact hndC
      exact distribute_InvP draw rest (i + 1) _ _ hnd.2 hsub' hndC' hndN' hstep

-- ### `scanCountries` lemmas

theorem scanGo_sound (a d : String) (cs0 : List Country) :
    ∀ (cs : List Country) (i : Nat) (oa od : Option (Nat × Country)),
      (∀ k, cs.get? k = cs0.get? (i + k)) →
      (∀ j c, oa = some (j, c) → cs0.get? j = some c ∧ c.name = a) →
      (∀ j c, od = some (j, c) → cs0.get? j = some c ∧ c.name = d ∧ a ≠ d) →
      (∀ j c, (scanGo a d cs i (oa, od)).1 = some (j, c) →
        cs0.get? j = some c ∧ c.name = a) ∧
      (∀ j c, (scanGo a d cs i (oa, od)).2 = some (j, c) →
        cs0.get? j = some c ∧ c.name = d ∧ a ≠ d)
  | [], _, _, _, _, ha, hd => ⟨ha, hd⟩
  | c :: rest, i, oa, od, hsfx, ha, hd => by
    have hc0 : cs0.get? i = some c := by
      have h0 := hsfx 0
      simp only [List.get?, Nat.add_zero] at h0
      exact h0.symm
    have hsfx' : ∀ k, rest.get? k = cs0.get? (i + 1 + k) := by
      intro k
      have h := hsfx (k + 1)
      rw [show i + (k + 1) = i + 1 + k by omega] at h
      simpa using h
    simp only [scanGo]
    by_cases h1 : c.name = a
    · rw [if_pos h1]
      refine scanGo_sound a d cs0 rest (i + 1) _ _ hsfx' ?_ hd
      intro j c' h
      have hpc := Option.some_inj.1 h
      injection hpc with hj hc
      subst hj
      subst hc
      exact ⟨hc0, h1⟩
    · rw [if_neg h1]
      by_cases h2 : c.name = d
      · rw [if_pos h2]
        refine scanGo_sound a d cs0 rest (i + 1) _ _ hsfx' ha ?_
        intro j c' h
        have hpc := Option.some_inj.1 h
        injection hpc with hj hc
        subst hj
        subst hc
        exact ⟨hc0, h2, fun he => h1 (he ▸ h2)⟩
      · rw [if_neg h2]
        exact scanGo_sound a d cs0 rest (i + 1) _ _ hsfx' ha hd

theorem scanCountries_sound {a d : String} {cs : List Country} {ia idd : Nat}
    {ca cd : Country}
    (h : scanCountries a d cs = (some (ia, ca), some (idd, cd))) :
    cs.get? ia = some ca ∧ ca.name = a ∧ cs.get? idd = some cd ∧ cd.name = d ∧
      a ≠ d ∧ ia ≠ idd := by
  have hs := scanGo_sound a d cs cs 0 none none (by intro k; simp)
    (by intro j c hc; cases hc) (by intro j c hc; cases hc)
  rw [scanCountries] at h
  have h1 := hs.1 ia ca (by rw [h])
  have h2 := hs.2 idd cd (by rw [h])
  refine ⟨h1.1, h1.2, h2.1, h2.2.1, h2.2.2, ?_⟩
  intro he
  rw [he, h2.1] at h1
  exact h2.2.2 (h1.2 ▸ (Option.some_inj.1 h1.1) ▸ h2.2.1)

theorem scanGo_fst_none (a d : String) :
    ∀ (cs : List Country) (i : Nat) (oa od : Option (Nat × Country)),
      (scanGo a d cs i (oa, od)).1 = none ↔ (oa = none ∧ ∀ c ∈ cs, c.name ≠ a)
  | [], _, _, _ => by simp [scanGo]
  | c :: rest, i, oa, od => by
    simp only [scanGo]
    by_cases h1 : c.name = a
    · rw [if_pos h1, scanGo_fst_none a d rest (i + 1) _ _]
      constructor
      · rintro ⟨hfalse, -⟩
        cases hfalse
      · rintro ⟨-, hall⟩
        exact absurd h1 (hall c (List.mem_cons_self c rest))
    · rw [if_neg h1]
      by_cases h2 : c.name = d
      · rw [if_pos h2, scanGo_fst_none a d rest (i + 1) _ _]
        constructor
        · rintro ⟨ho, hall⟩
          refine ⟨ho, fun c' hc' => ?_⟩
          rcases List.mem_cons.1 hc' with rfl | hc'
          · exact h1
          · exact hall c' hc'
        · rintro ⟨ho, hall⟩
          exact ⟨ho, fun c' hc' => hall c' (List.mem_cons_of_mem _ hc')⟩
      · rw [if_neg h2, scanGo_fst_none a d rest (i + 1) _ _]
        constructor
        · rintro ⟨ho, hall⟩
          refine ⟨ho, fun c' hc' => ?_⟩
          rcases List.mem_cons.1 hc' with rfl | hc'
          · exact h1
          · exact hall c' hc'
        · rintro ⟨ho, hall⟩
          exact ⟨ho, fun c' hc' => hall c' (List.mem_cons_of_mem _ hc')⟩

theorem scanGo_snd_none (a d : String) :
    ∀ (cs : List Country) (i : Nat) (oa od : Option (Nat × Country)),
      (scanGo a d cs i (oa, od)).2 = none ↔
        (od = none ∧ ∀ c ∈ cs, c.name = d → c.name = a)
  | [], _, _, _ => by simp [scanGo]
  | c :: rest, i, oa, od => by
    simp only [scanGo]
    by_cases h1 : c.name = a
    · rw [if_pos h1, scanGo_snd_none a d rest (i + 1) _ _]
      simp only [List.mem_cons]
      constructor
      · rintro ⟨ho, hall⟩
        exact ⟨ho, fun c' hc' hd' => by
          rcases hc' with rfl | hc'
          · exact h1
          · exact hall c' hc' hd'⟩
      · rintro ⟨ho, hall⟩
        exact ⟨ho, fun c' hc' hd' => hall c' (Or.inr hc') hd'⟩
    · rw [if_neg h1]
      by_cases h2 : c.name = d
      · rw [if_pos h2, scanGo_snd_none a d rest (i + 1) _ _]
        constructor
        · rintro ⟨hfalse, -⟩
          cases hfalse
        · rintro ⟨-, hall⟩
          exact absurd (hall c (List.mem_cons_self c rest) h2) h1
      · rw [if_neg h2, scanGo_snd_none a d rest (i + 1) _ _]
        simp only [List.mem_cons]
        constructor
        · rintro ⟨ho, hall⟩
          exact ⟨ho, fun c' hc' hd' => by
            rcases hc' with rfl | hc'
            · exact absurd hd' h2
            · exact hall c' hc' hd'⟩
        · rintro ⟨ho, hall⟩
          exact ⟨ho, fun c' hc' hd' => hall c' (Or.inr hc') hd'⟩

-- ### Helpers for the two in-place country updates of `handle_attack`

theorem get?_set_pair_fst {cs : List Country} {ia idd : Nat} {x y : Country}
    (hia : ia < cs.length) (hne : ia ≠ idd) :
    ((cs.set ia x).set idd y).get? ia = some x := by
  rw [List.get?_set_ne _ _ (Ne.symm hne), List.get?_set_eq_of_lt _ hia]

theorem get?_set_pair_snd {cs : List Country} {ia idd : Nat} {x y : Country}
    (hidd : idd < cs.length) :
    ((cs.set ia x).set idd y).get? idd = some y := by
  rw [List.get?_set_eq_of_lt]
  rw [List.length_set]
  exact hidd

theorem get?_set_pair_other {cs : List Country} {ia idd j : Nat} {x y : Country}
    (h1 : j ≠ ia) (h2 : j ≠ idd) :
    ((cs.set ia x).set idd y).get? j = cs.get? j := by
  rw [List.get?_set_ne _ _ (Ne.symm h2), List.get?_set_ne _ _ (Ne.symm h1)]

theorem mem_set_pair {cs : List Country} {ia idd : Nat} {x y c' : Country}
    (h : c' ∈ (cs.set ia x).set idd y) : c' = x ∨ c' = y ∨ c' ∈ cs := by
  rcases List.mem_or_eq_of_mem_set h with h | rfl
  · rcases List.mem_or_eq_of_mem_set h with h | rfl
    · exact Or.inr (Or.inr h)
    · exact Or.inl rfl
  · exact Or.inr (Or.inl rfl)

theorem mem_set_pair_preserve {cs : List Country} {ia idd : Nat}
    {ca cd x y c : Country} (hia : cs.get? ia = some ca)
    (hidd : cs.get? idd = some cd) (hmem : c ∈ cs) (h1 : c.name ≠ ca.name)
    (h2 : c.name ≠ cd.name) : c ∈ (cs.set ia x).set idd y := by
  rcases List.mem_iff_get?.1 hmem with ⟨j, hj⟩
  have hj1 : j ≠ ia := by
    intro he
    rw [he, hia] at hj
    exact h1 (by rw [Option.some_inj.1 hj.symm])
  have hj2 : j ≠ idd := by
    intro he
    rw [he, hidd] at hj
    exact h2 (by rw [Option.some_inj.1 hj.symm])
  refine List.get?_mem (n := j) ?_
  rw [get?_set_pair_other hj1 hj2]
  exact hj

theorem mem_set_pair_name_fst {cs : List Country} {ia idd : Nat}
    {ca cd x y c' : Country} (hndC : (cs.map (fun c => c.name)).Nodup)
    (hia : cs.get? ia = some ca) (hidd : cs.get? idd = some cd)
    (hne : ia ≠ idd) (hnames : ca.name ≠ cd.name)
    (hm : c' ∈ (cs.set ia x).set idd y) (hcn : c'.name = ca.name)
    (hyn : y.name = cd.name) : c' = x := by
  rcases List.mem_iff_get?.1 hm with ⟨j, hj⟩
  by_cases hj2 : j = idd
  · rw [hj2, get?_set_pair_snd (get?_some_lt hidd)] at hj
    exfalso
    have hyc : y = c' := Option.some_inj.1 hj
    refine hnames ?_
    rw [← hcn, ← hyc]
    exact hyn
  · by_cases hj1 : j = ia
    · rw [hj1, get?_set_pair_fst (get?_some_lt hia) hne] at hj
      exact (Option.some_inj.1 hj).symm
    · rw [get?_set_pair_other hj1 hj2] at hj
      exfalso
      refine hj1 (get?_same_of_nodup (x := ca.name) hndC ?_ ?_)
      · rw [List.get?_map, hj]
        simp [hcn]
      · rw [List.get?_map, hia]
        rfl

theorem mem_set_pair_name_snd {cs : List Country} {ia idd : Nat}
    {ca cd x y c' : Country} (hndC : (cs.map (fun c => c.name)).Nodup)
    (hia : cs.get? ia = some ca) (hidd : cs.get? idd = some cd)
    (hne : ia ≠ idd) (hnames : ca.name ≠ cd.name)
    (hm : c' ∈ (cs.set ia x).set idd y) (hcn : c'.name = cd.name)
    (hxn : x.name = ca.name) : c' = y := by
  rcases List.mem_iff_get?.1 hm with ⟨j, hj⟩
  by_cases hj2 : j = idd
  · rw [hj2, get?_set_pair_snd (get?_some_lt hidd)] at hj
    exact (Option.some_inj.1 hj).symm
  · by_cases hj1 : j = ia
    · rw [hj1, get?_set_pair_fst (get?_some_lt hia) hne] at hj
      exfalso
      have hxc : x = c' := Option.some_inj.1 hj
      refine hnames ?_
      rw [← hxn, hxc, hcn]
    · rw [get?_set_pair_other hj1 hj2] at hj
      exfalso
      refine hj2 (get?_same_of_nodup (x := cd.name) hndC ?_ ?_)
      · rw [List.get?_map, hj]
        simp [hcn]
      · rw [List.get?_map, hidd]
        rfl

-- ### Dictionary helpers

theorem dictGet_dictInsert_map {α : Type} {k : String} (v : α) :
    ∀ (d : List (String × α)), d.any (fun q => q.1 == k) = true →
      dictGet (d.map (fun q => if q.1 = k then (k, v) else q)) k = some v
  | [], h => by simp at h
  | (k1, w) :: rest, h => by
    simp only [List.map_cons]
    by_cases hk : k1 = k
    · have h1 : (if (k1, w).1 = k then (k, v) else (k1, w)) = (k, v) := if_pos hk
      rw [h1]
      simp [dictGet]
    · have h1 : (if (k1, w).1 = k then (k, v) else (k1, w)) = (k1, w) := if_neg hk
      rw [h1]
      have h' : rest.any (fun q => q.1 == k) = true := by
        simp only [List.any_cons, Bool.or_eq_true, beq_iff_eq] at h
        rcases h with h | h
        · exact absurd h hk
        · simpa using h
      simp only [dictGet, if_neg hk]
      exact dictGet_dictInsert_map v rest h'

theorem dictGet_append_self {α : Type} {k : String} (v : α) :
    ∀ (d : List (String × α)), d.any (fun q => q.1 == k) = false →
      dictGet (d ++ [(k, v)]) k = some v
  | [], _ => by simp [dictGet]
  | (k1, w) :: rest, h => by
    simp only [List.any_cons, Bool.or_eq_false_iff, beq_eq_false_iff_ne, ne_eq] at h
    simp only [List.cons_append, dictGet, if_neg h.1]
    exact dictGet_append_self v rest (by simpa using h.2)

theorem dictGet_dictInsert_self {α : Type} (d : List (String × α)) (k : String)
    (v : α) : dictGet (dictInsert d k v) k = some v := by
  unfold dictInsert
  by_cases h : d.any (fun q => q.1 == k) = true
  · rw [if_pos h]
    exact dictGet_dictInsert_map v d h
  · rw [if_neg h]
    exact dictGet_append_self v d (Bool.not_eq_true _ ▸ h)

theorem dictInsert_fresh {α : Type} (d : List (String × α)) (k : String) (v : α)
    (h : ∀ q ∈ d, q.1 ≠ k) : dictInsert d k v = d ++ [(k, v)] := by
  unfold dictInsert
  rw [if_neg]
  simp only [List.any_eq_true, beq_iff_eq, not_exists]
  exact fun q hq => h q hq.1 hq.2

theorem dictGet_dictRemove_self {α : Type} (k : String) :
    ∀ (d : List (String × α)), dictGet (dictRemove d k) k = none
  | [] => rfl
  | (k1, w) :: rest => by
    by_cases hk : k1 = k
    · simp only [dictRemove, if_pos hk]
      exact dictGet_dictRemove_self k rest
    · simp only [dictRemove, if_neg hk, dictGet, if_neg hk]
      exact dictGet_dictRemove_self k rest

theorem mem_dictRemove_ne {α : Type} {k : String} {q : String × α} :
    ∀ {d : List (String × α)}, q ∈ dictRemove d k → q.1 ≠ k
  | [], h => by cases h
  | (k1, w) :: rest, h => by
    by_cases hk : k1 = k
    · rw [dictRemove, if_pos hk] at h
      exact mem_dictRemove_ne h
    · rw [dictRemove, if_neg hk] at h
      rcases List.mem_cons.1 h with rfl | h
      · exact hk
      · exact mem_dictRemove_ne h

-- ### `findIdx?` helpers

theorem findIdx?_go_of_nodup {l : List String} {k : String} :
    ∀ (i s : Nat), l.Nodup → l.get? i = some k →
      List.findIdx? (fun x => x == k) l s = some (s + i) := by
  induction l with
  | nil => intro i s _ hi; cases hi
  | cons a rest ih =>
    intro i s hnd hi
    simp only [List.nodup_cons] at hnd
    match i with
    | 0 =>
      have ha : a = k := Option.some_inj.1 hi
      simp [List.findIdx?, ha]
    | i' + 1 =>
      have hk : rest.get? i' = some k := hi
      have hne : (a == k) = false := by
        simp only [beq_eq_false_iff_ne, ne_eq]
        intro he
        exact hnd.1 (he ▸ List.get?_mem hk)
      simp only [List.findIdx?, hne, Bool.false_eq_true, if_false]
      rw [show s + (i' + 1) = s + 1 + i' by omega]
      exact ih i' (s + 1) hnd.2 hk

theorem findIdx?_of_nodup {l : List String} {k : String} {i : Nat}
    (hnd : l.Nodup) (hi : l.get? i = some k) :
    l.findIdx? (fun x => x == k) = some i := by
  have := findIdx?_go_of_nodup (l := l) (k := k) i 0 hnd hi
  simpa using this

theorem findIdx?_go_none {α : Type} (p : α → Bool) :
    ∀ (l : List α) (s : Nat), (∀ x ∈ l, p x = false) →
      List.findIdx? p l s = none
  | [], _, _ => rfl
  | a :: rest, s, h => by
    simp only [List.findIdx?, h a (List.mem_cons_self a rest)]
    exact findIdx?_go_none p rest (s + 1) (fun x hx => h x (List.mem_cons_of_mem _ hx))

/-- C10: whenever `handle_attack` returns a failure result (unknown attacker
or defender territory name, or attacker army at most 1), the whole session
state is returned unchanged: every territory's owner, color and army and
every player's fields, including `areas`, are exactly as before the call. -/
theorem C10_attack_failure_leaves_state_unchanged
    (g : GameState) (a d : String) (win : Bool)
    (h : (handle_attack g a d win).2.success = false) :
    (handle_attack g a d win).1 = g := by
  rcases hscan : scanCountries a d g.countries with ⟨o1, o2⟩
  cases o1 with
  | none => simp [handle_attack, hscan]
  | some p1 =>
    cases o2 with
    | none => simp [handle_attack, hscan]
    | some p2 =>
      rcases p1 with ⟨ia, ca⟩
      rcases p2 with ⟨idd, cd⟩
      by_cases harmy : ca.army ≤ 1
      · simp [handle_attack, hscan, harmy]
      · exfalso
        cases win
        · simp [handle_attack, hscan, harmy] at h
        · simp [handle_attack, hscan, harmy] at h

theorem C10_witness :
    (handle_attack selfAttackGame "zz" "c1" true).2.success = false ∧
    (handle_attack selfAttackGame "zz" "c1" true).1 = selfAttackGame :=
  ⟨by decide,
   C10_attack_failure_leaves_state_unchanged selfAttackGame "zz" "c1" true (by decide)⟩

/-- C6: `join_game` fails on an absent session id, and fails whenever the
session already holds `max_players` players (regardless of the payload) or
has started; otherwise it succeeds, inserts the player into the session's
player map (appended at the end of the insertion order when the id is new,
fixing future turn order) and records the player-to-session mapping. -/
theorem C6_join_game_spec :
    (∀ (gm : GameManager) (gid : String) (p : Player),
      dictGet gm.games gid = none → join_game gm gid p = (gm, false)) ∧
    (∀ (gm : GameManager) (gid : String) (p : Player) (game : GameState),
      dictGet gm.games gid = some game →
      game.max_players ≤ game.players.length ∨ game.started = true →
      join_game gm gid p = (gm, false)) ∧
    (∀ (gm : GameManager) (gid : String) (p : Player) (game : GameState),
      dictGet gm.games gid = some game →
      game.players.length < game.max_players → game.started = false →
      (join_game gm gid p).2 = true ∧
      dictGet (join_game gm gid p).1.games gid =
        some { game with players := dictInsert game.players p.id p } ∧
      dictGet (join_game gm gid p).1.player_to_game p.id = some gid) ∧
    (∀ (gm : GameManager) (gid : String) (p : Player) (game : GameState),
      dictGet gm.games gid = some game →
      game.players.length < game.max_players → game.started = false →
      (∀ q ∈ game.players, q.1 ≠ p.id) →
      dictGet (join_game gm gid p).1.games gid =
        some { game with players := game.players ++ [(p.id, p)] }) := by
  have hcondF : ∀ (game : GameState), game.players.length < game.max_players →
      game.started = false →
      ¬(game.max_players ≤ game.players.length ∨ game.started = true) := by
    intro game hlen hst
    rintro (h | h)
    · omega
    · rw [hst] at h
      cases h
  refine ⟨?_, ?_, ?_, ?_⟩
  · intro gm gid p h
    simp [join_game, h]
  · intro gm gid p game hg hcond
    simp only [join_game, hg]
    rw [if_pos hcond]
  · intro gm gid p game hg hlen hst
    simp only [join_game, hg]
    rw [if_neg (hcondF game hlen hst)]
    exact ⟨rfl, dictGet_dictInsert_self _ _ _, dictGet_dictInsert_self _ _ _⟩
  · intro gm gid p game hg hlen hst hfresh
    simp only [join_game, hg]
    rw [if_neg (hcondF game hlen hst)]
    rw [dictInsert_fresh game.players p.id p hfresh]
    exact dictGet_dictInsert_self _ _ _

theorem C6_witness :
    (dictGet ({ games := [], player_to_game := [] } : GameManager).games "g" = none ∧
      join_game { games := [], player_to_game := [] } "g" (mkTestPlayer "p9" "Zoe") =
        ({ games := [], player_to_game := [] }, false)) ∧
    (dictGet ({ games := [("s", selfAttackGame)], player_to_game := [] } :
        GameManager).games "s" = some selfAttackGame ∧
      (selfAttackGame.max_players ≤ selfAttackGame.players.length ∨
        selfAttackGame.started = true) ∧
      join_game { games := [("s", selfAttackGame)], player_to_game := [] } "s"
        (mkTestPlayer "p9" "Zoe") =
        ({ games := [("s", selfAttackGame)], player_to_game := [] }, false)) ∧
    (dictGet testGM0.games "g" = some testGame0 ∧
      testGame0.players.length < testGame0.max_players ∧ testGame0.started = false ∧
      (join_game testGM0 "g" (mkTestPlayer "p2" "Cara")).2 = true ∧
      dictGet (join_game testGM0 "g" (mkTestPlayer "p2" "Cara")).1.games "g" =
        some { testGame0 with players :=
          (dictInsert testGame0.players (mkTestPlayer "p2" "Cara").id
            (mkTestPlayer "p2" "Cara")) } ∧
      dictGet (join_game testGM0 "g" (mkTestPlayer "p2" "Cara")).1.player_to_game
        (mkTestPlayer "p2" "Cara").id = some "g") ∧
    ((∀ q ∈ testGame0.players, q.1 ≠ (mkTestPlayer "p2" "Cara").id) ∧
      dictGet (join_game testGM0 "g" (mkTestPlayer "p2" "Cara")).1.games "g" =
        some { testGame0 with players :=
          (testGame0.players ++ [((mkTestPlayer "p2" "Cara").id, mkTestPlayer "p2" "Cara")]) }) := by
  refine ⟨⟨rfl, C6_join_game_spec.1 _ "g" _ rfl⟩, ⟨rfl, ?_, ?_⟩, ⟨rfl, by decide, rfl, ?_⟩, ⟨by decide, ?_⟩⟩
  · exact Or.inr rfl
  · exact C6_join_game_spec.2.1 _ "s" _ _ rfl (Or.inr rfl)
  · exact C6_join_game_spec.2.2.1 _ "g" _ _ rfl (by decide) rfl
  · exact C6_join_game_spec.2.2.2 _ "g" _ _ rfl (by decide) rfl (by decide)

/-- C7: for a player id mapped to an existing session, `leave_game` removes
that player from the session's player map, always removes the
player-to-session mapping, and when the player was the last one remaining the
session itself is deleted, so a subsequent `get_game` returns `none`. -/
theorem C7_leave_game_spec :
    (∀ (gm : GameManager) (pid gid : String),
      dictGet gm.player_to_game pid = some gid →
      dictGet (leave_game gm pid).player_to_game pid = none) ∧
    (∀ (gm : GameManager) (pid gid : String) (game g' : GameState),
      dictGet gm.player_to_game pid = some gid →
      dictGet gm.games gid = some game →
      dictGet (leave_game gm pid).games gid = some g' →
      ∀ q ∈ g'.players, q.1 ≠ pid) ∧
    (∀ (gm : GameManager) (pid gid : String) (game : GameState),
      dictGet gm.player_to_game pid = some gid →
      dictGet gm.games gid = some game →
      game.players.map Prod.fst = [pid] →
      get_game (leave_game gm pid) gid = none) := by
  refine ⟨?_, ?_, ?_⟩
  · intro gm pid gid hm
    simp only [leave_game, hm]
    exact dictGet_dictRemove_self pid _
  · intro gm pid gid game g' hm hg hg' q hq
    simp only [leave_game, hm, hg] at hg'
    rw [apply_ite (fun x : GameManager => x.games)] at hg'
    by_cases hz : ({ game with players := dictRemove game.players pid } :
        GameState).players.length = 0
    · rw [if_pos hz] at hg'
      simp only at hg'
      rw [dictGet_dictRemove_self gid gm.games] at hg'
      cases hg'
    · rw [if_neg hz] at hg'
      simp only at hg'
      rw [dictGet_dictInsert_self] at hg'
      have hgg : ({ game with players := dictRemove game.players pid } : GameState) = g' :=
        Option.some_inj.1 hg'
      rw [← hgg] at hq
      exact mem_dictRemove_ne hq
  · intro gm pid gid game hm hg hkeys
    have hrem : dictRemove game.players pid = [] := by
      cases hp : game.players with
      | nil => rfl
      | cons q rest =>
        rw [hp] at hkeys
        simp only [List.map_cons, List.cons.injEq] at hkeys
        have hrest : rest = [] := List.map_eq_nil.1 hkeys.2
        rw [hrest]
        rcases q with ⟨k1, p1⟩
        simp only at hkeys
        rw [dictRemove, if_pos hkeys.1]
        rfl
    simp only [get_game, leave_game, hm, hg]
    rw [apply_ite (fun x : GameManager => x.games)]
    rw [if_pos]
    · exact dictGet_dictRemove_self gid _
    · simp only [hrem]
      rfl

theorem C7_witness :
    (dictGet testGM0.player_to_game "p0" = some "g" ∧
      dictGet (leave_game testGM0 "p0").player_to_game "p0" = none) ∧
    (dictGet testGM0.games "g" = some testGame0 ∧
      dictGet (leave_game testGM0 "p0").games "g" =
        some { testGame0 with players := [("p1", mkTestPlayer "p1" "Bob")] } ∧
      ∀ q ∈ ({ testGame0 with players := [("p1", mkTestPlayer "p1" "Bob")] } :
        GameState).players, q.1 ≠ "p0") ∧
    ((selfAttackGame.players.map Prod.fst = ["q0"]) ∧
      get_game (leave_game { games := [("s", selfAttackGame)], player_to_game := [("q0", "s")] } "q0") "s" = none) := by
  refine ⟨⟨rfl, C7_leave_game_spec.1 testGM0 "p0" "g" rfl⟩, ⟨rfl, by decide, ?_⟩, ⟨by decide, ?_⟩⟩
  · exact C7_leave_game_spec.2.1 testGM0 "p0" "g" testGame0 _ rfl rfl (by decide)
  · exact C7_leave_game_spec.2.2 _ "q0" "s" selfAttackGame rfl rfl (by decide)

/-- C8: in a session an `end_turn` command from the player holding
`current_player_id` advances `current_player_id` to the next key in the
players' insertion order, wrapping from the last entry to the first, and
changes nothing else (in particular neither `stage` nor `turn`); an
`end_turn` command from any other player leaves the session unchanged and
emits no event. -/
theorem C8_end_turn_spec :
    (∀ (g : GameState) (client : String) (i : Nat),
      g.current_player_id = client →
      (g.players.map Prod.fst).Nodup →
      (g.players.map Prod.fst).get? i = some client →
      end_turn g client =
        some ({ g with current_player_id :=
            ((g.players.map Prod.fst).getD
              ((i + 1) % (g.players.map Prod.fst).length) client) },
          ["turn_ended"])) ∧
    (∀ (g : GameState) (client : String),
      g.current_player_id ≠ client → end_turn g client = some (g, [])) := by
  constructor
  · intro g client i hcur hnd hi
    simp only [end_turn]
    rw [if_pos hcur]
    rw [findIdx?_of_nodup hnd hi]
  · intro g client hne
    simp only [end_turn]
    rw [if_neg hne]

theorem C8_witness :
    (duelGame.current_player_id = "r0" ∧
      (duelGame.players.map Prod.fst).Nodup ∧
      (duelGame.players.map Prod.fst).get? 0 = some "r0" ∧
      end_turn duelGame "r0" =
        some ({ duelGame with current_player_id :=
            ((duelGame.players.map Prod.fst).getD
              ((0 + 1) % (duelGame.players.map Prod.fst).length) "r0") },
          ["turn_ended"])) ∧
    (duelGame.current_player_id ≠ "r1" ∧
      end_turn duelGame "r1" = some (duelGame, [])) := by
  refine ⟨⟨rfl, by decide, rfl, ?_⟩, ⟨by decide, ?_⟩⟩
  · exact C8_end_turn_spec.1 duelGame "r0" 0 rfl (by decide) rfl
  · exact C8_end_turn_spec.2 duelGame "r1" (by decide)

/-- C9: a `place_army` command from the current player with
`amount ≤ reserve` on the first territory with the given name owned by that
player decrements the player's reserve by `amount` and increments that
territory's army by `amount`; if the reserve is too small or the player owns
no territory of that name, no territory army and no player reserve
changes. -/
theorem C9_place_army_spec :
    (∀ (g : GameState) (client tname : String) (amount : Int) (player : Player)
       (j : Nat) (c : Country),
      g.current_player_id = client →
      dictGet g.players client = some player →
      amount ≤ player.reserve →
      g.countries.findIdx? (fun c => c.name == tname && c.owner == player.name) =
        some j →
      g.countries.get? j = some c →
      place_army g client tname amount =
        some ({ g with
                 countries := (g.countries.set j { c with army := c.army + amount }),
                 players := (dictInsert g.players client
                   { player with reserve := player.reserve - amount }) },
          ["army_placed"])) ∧
    (∀ (g : GameState) (client tname : String) (amount : Int) (player : Player),
      g.current_player_id = client →
      dictGet g.players client = some player →
      player.reserve < amount →
      place_army g client tname amount = some (g, [])) ∧
    (∀ (g : GameState) (client tname : String) (amount : Int) (player : Player),
      g.current_player_id = client →
      dictGet g.players client = some player →
      amount ≤ player.reserve →
      (∀ c ∈ g.countries, ¬(c.name = tname ∧ c.owner = player.name)) →
      place_army g client tname amount = some (g, ["army_placed"])) := by
  refine ⟨?_, ?_, ?_⟩
  · intro g client tname amount player j c hcur hget hres hfind hc
    simp only [place_army, hget, if_pos hcur, if_pos hres, hfind, hc]
  · intro g client tname amount player hcur hget hlt
    simp only [place_army, hget]
    rw [if_pos hcur, if_neg (not_le.2 hlt)]
  · intro g client tname amount player hcur hget hres hall
    have hfalse : ∀ c ∈ g.countries,
        (c.name == tname && c.owner == player.name) = false := by
      intro c hc
      by_cases h1 : c.name = tname
      · have h2 : c.owner ≠ player.name := fun h2 => hall c hc ⟨h1, h2⟩
        simp [h1, h2]
      · simp [h1]
    have hnone : g.countries.findIdx?
        (fun c => c.name == tname && c.owner == player.name) = none :=
      findIdx?_go_none _ g.countries 0 hfalse
    simp only [place_army, hget, if_pos hcur, if_pos hres, hnone]

theorem C9_witness :
    (duelGame.current_player_id = "r0" ∧
      dictGet duelGame.players "r0" = some (duelGame.players.get ⟨0, by decide⟩).2 ∧
      (5 : Int) ≤ (duelGame.players.get ⟨0, by decide⟩).2.reserve ∧
      duelGame.countries.findIdx? (fun c => c.name == "c1" &&
        c.owner == (duelGame.players.get ⟨0, by decide⟩).2.name) = some 0 ∧
      duelGame.countries.get? 0 = some (duelGame.countries.get ⟨0, by decide⟩) ∧
      place_army duelGame "r0" "c1" 5 =
        some ({ duelGame with
                 countries := (duelGame.countries.set 0
                   { duelGame.countries.get ⟨0, by decide⟩ with
                       army := ((duelGame.countries.get ⟨0, by decide⟩).army + 5) }),
                 players := (dictInsert duelGame.players "r0"
                   { (duelGame.players.get ⟨0, by decide⟩).2 with
                       reserve := ((duelGame.players.get ⟨0, by decide⟩).2.reserve - 5) }) },
          ["army_placed"])) ∧
    ((duelGame.players.get ⟨0, by decide⟩).2.reserve < 99 ∧
      place_army duelGame "r0" "c1" 99 = some (duelGame, [])) ∧
    ((∀ c ∈ duelGame.countries, ¬(c.name = "c2" ∧
        c.owner = (duelGame.players.get ⟨0, by decide⟩).2.name)) ∧
      place_army duelGame "r0" "c2" 5 = some (duelGame, ["army_placed"])) := by
  refine ⟨⟨rfl, rfl, by decide, rfl, rfl, ?_⟩, ⟨by decide, ?_⟩, ⟨by decide, ?_⟩⟩
  · exact C9_place_army_spec.1 duelGame "r0" "c1" 5 _ 0 _ rfl rfl (by decide) rfl rfl
  · exact C9_place_army_spec.2.1 duelGame "r0" "c1" 99 _ rfl rfl (by decide)
  · exact C9_place_army_spec.2.2 duelGame "r0" "c2" 5 _ rfl rfl (by decide) (by decide)

/-- C5 (amended): `handle_attack` returns the invalid-countries failure
whenever the attacker or defender name is unregistered, regardless of any
other session state; when both names are registered and distinct it returns
the insufficient-force failure whenever the attacker territory's army is at
most 1; but when attacker and defender carry the same registered name the
search loop's `elif` never binds the defender, so the invalid-countries
failure is returned instead. -/
theorem C5_attack_precondition_failures :
    (∀ (g : GameState) (a d : String) (win : Bool),
      ((∀ c ∈ g.countries, c.name ≠ a) ∨ (∀ c ∈ g.countries, c.name ≠ d)) →
      (handle_attack g a d win).2 = invalidCountriesResult) ∧
    (∀ (g : GameState) (a d : String) (win : Bool) (ca : Country),
      (g.countries.map (fun c => c.name)).Nodup →
      ca ∈ g.countries → ca.name = a →
      (∃ c ∈ g.countries, c.name = d) → a ≠ d →
      ca.army ≤ 1 →
      (handle_attack g a d win).2 = notEnoughArmiesResult) ∧
    (∀ (g : GameState) (a : String) (win : Bool),
      (handle_attack g a a win).2 = invalidCountriesResult) := by
  refine ⟨?_, ?_, ?_⟩
  · intro g a d win h
    rcases hscan : scanCountries a d g.countries with ⟨o1, o2⟩
    rcases h with h | h
    · have ho1 : o1 = none := by
        have h1 : (scanCountries a d g.countries).1 = none := by
          rw [scanCountries]
          exact (scanGo_fst_none a d g.countries 0 none none).2 ⟨rfl, h⟩
        rw [hscan] at h1
        exact h1
      subst ho1
      simp [handle_attack, hscan]
    · have ho2 : o2 = none := by
        have h2 : (scanCountries a d g.countries).2 = none := by
          rw [scanCountries]
          exact (scanGo_snd_none a d g.countries 0 none none).2
            ⟨rfl, fun c hc hd => absurd hd (h c hc)⟩
        rw [hscan] at h2
        exact h2
      subst ho2
      cases o1 with
      | none => simp [handle_attack, hscan]
      | some p1 => simp [handle_attack, hscan]
  · intro g a d win ca hnd hca hname hd hne harmy
    rcases hscan : scanCountries a d g.countries with ⟨o1, o2⟩
    cases o1 with
    | none =>
      exfalso
      have h1 : (scanCountries a d g.countries).1 = none := by rw [hscan]
      rw [scanCountries] at h1
      exact ((scanGo_fst_none a d g.countries 0 none none).1 h1).2 ca hca hname
    | some p1 =>
      cases o2 with
      | none =>
        exfalso
        have h2 : (scanCountries a d g.countries).2 = none := by rw [hscan]
        rw [scanCountries] at h2
        have hall := ((scanGo_snd_none a d g.countries 0 none none).1 h2).2
        rcases hd with ⟨cd0, hcd0, hcdn⟩
        have : cd0.name = a := hall cd0 hcd0 hcdn
        exact hne (this ▸ hcdn)
      | some p2 =>
        rcases p1 with ⟨ia, ca1⟩
        rcases p2 with ⟨idd, cd1⟩
        obtain ⟨hia, hca1, _, _, _, _⟩ := scanCountries_sound hscan
        have hcc : ca1 = ca := mem_name_eq_of_nodup hnd (List.get?_mem hia) hca
          (by rw [hca1, hname])
        have harmy1 : ca1.army ≤ 1 := by rw [hcc]; exact harmy
        simp [handle_attack, hscan, harmy1]
  · intro g a win
    rcases hscan : scanCountries a a g.countries with ⟨o1, o2⟩
    have ho2 : o2 = none := by
      have h2 : (scanCountries a a g.countries).2 = none := by
        rw [scanCountries]
        exact (scanGo_snd_none a a g.countries 0 none none).2 ⟨rfl, fun c hc hd => hd⟩
      rw [hscan] at h2
      exact h2
    subst ho2
    cases o1 with
    | none => simp [handle_attack, hscan]
    | some p1 => simp [handle_attack, hscan]

theorem C5_counterexample :
    (∃ c ∈ lowArmyGame.countries, c.name = "c1" ∧ c.army ≤ 1) ∧
    (handle_attack lowArmyGame "c1" "c1" true).2 = invalidCountriesResult ∧
    (handle_attack lowArmyGame "c1" "c1" true).2 ≠ notEnoughArmiesResult := by
  refine ⟨by decide, by decide, by decide⟩

theorem C5_witness :
    ((∀ c ∈ duelGame.countries, c.name ≠ "zz") ∧
      (handle_attack duelGame "zz" "c2" true).2 = invalidCountriesResult) ∧
    ((lowArmyGame.countries.map (fun c => c.name)).Nodup ∧
      { soloC1 with army := 1 } ∈ lowArmyGame.countries ∧
      ({ soloC1 with army := 1 } : Country).army ≤ 1 ∧ ("c1" : String) ≠ "c2" ∧
      (handle_attack lowArmyGame "c1" "c2" true).2 = notEnoughArmiesResult) ∧
    (handle_attack duelGame "c1" "c1" false).2 = invalidCountriesResult := by
  refine ⟨⟨by decide, ?_⟩, ⟨by decide, by decide, by decide, by decide, ?_⟩, ?_⟩
  · exact C5_attack_precondition_failures.1 duelGame "zz" "c2" true (Or.inl (by decide))
  · exact C5_attack_precondition_failures.2.1 lowArmyGame "c1" "c2" true
      { soloC1 with army := 1 } (by decide) (by decide) (by decide)
      ⟨soloC2, by decide, by decide⟩ (by decide) (by decide)
  · exact C5_attack_precondition_failures.2.2 duelGame "c1" false

/-- C4 (amended): for an attack resolution whose preconditions pass, on an
attacker-win draw the defender territory's owner and color become the
attacker territory's pre-attack owner and color and, with
`pool = attacker.army + defender.army`, the attacker territory's new army is
`max 1 (pool // 2)` and the defender territory's is the remainder (5 versus 3
yields 4 and 4); when the two territories' pre-attack owners differ the
defender territory is removed from the losing player's `areas` and appended
to the winning player's, but when both territories share one owner the name
is only removed from that player's list and not re-appended; on a
defender-win draw the attacker territory's army becomes
`max 0 (army - 2)`, the defender territory's army is floored at 1, and
ownership, colors and all `areas` lists are unchanged. -/
theorem C4_attack_resolution_effects :
    (∀ (g : GameState) (a d : String) (ia idd : Nat) (ca cd : Country)
       (lid wid : String) (lp wp : Player),
      scanCountries a d g.countries = (some (ia, ca), some (idd, cd)) →
      1 < ca.army →
      ca.owner ≠ cd.owner →
      (lid, lp) ∈ g.players → lp.name = cd.owner → d ∈ lp.areas →
      (wid, wp) ∈ g.players → wp.name = ca.owner →
      (handle_attack g a d true).2 = ⟨true, "attacker", a ++ " conquered " ++ d⟩ ∧
      (handle_attack g a d true).1.countries.get? idd =
        some { cd with
                 owner := ca.owner, color := ca.color,
                 army := ca.army + cd.army - max 1 (Int.fdiv (ca.army + cd.army) 2) } ∧
      (handle_attack g a d true).1.countries.get? ia =
        some { ca with army := max 1 (Int.fdiv (ca.army + cd.army) 2) } ∧
      (lid, { lp with areas := lp.areas.erase d }) ∈
        (handle_attack g a d true).1.players ∧
      (wid, { wp with areas := wp.areas ++ [d] }) ∈
        (handle_attack g a d true).1.players) ∧
    (∀ (g : GameState) (a d : String) (ia idd : Nat) (ca cd : Country)
       (lid : String) (lp : Player),
      scanCountries a d g.countries = (some (ia, ca), some (idd, cd)) →
      1 < ca.army →
      ca.owner = cd.owner →
      (lid, lp) ∈ g.players → lp.name = cd.owner → d ∈ lp.areas →
      (lid, { lp with areas := lp.areas.erase d }) ∈
        (handle_attack g a d true).1.players ∧
      (∀ q ∈ g.players, q.2.name ≠ cd.owner →
        q ∈ (handle_attack g a d true).1.players)) ∧
    (∀ (g : GameState) (a d : String) (ia idd : Nat) (ca cd : Country),
      scanCountries a d g.countries = (some (ia, ca), some (idd, cd)) →
      1 < ca.army →
      (handle_attack g a d false).2 =
        ⟨true, "defender", d ++ " defended successfully"⟩ ∧
      (handle_attack g a d false).1.players = g.players ∧
      (handle_attack g a d false).1.countries.get? ia =
        some { ca with army := max 0 (ca.army - 2) } ∧
      (handle_attack g a d false).1.countries.get? idd =
        some { cd with army := max 1 cd.army }) := by
  refine ⟨?_, ?_, ?_⟩
  · intro g a d ia idd ca cd lid wid lp wp hscan harmy hne hlm hln hla hwm hwn
    obtain ⟨hia, hcan, hidd, hcdn, hnad, hneidx⟩ := scanCountries_sound hscan
    have hred : handle_attack g a d true =
        ({ g with
            players := (g.players.map (fun q =>
              if q.2.name = cd.owner ∧ d ∈ q.2.areas then
                (q.1, { q.2 with areas := q.2.areas.erase d })
              else if q.2.name = ca.owner then
                (q.1, { q.2 with areas := q.2.areas ++ [d] })
              else q)),
            countries := ((g.countries.set ia
                { ca with army := max 1 (Int.fdiv (ca.army + cd.army) 2) }).set idd
              { cd with
                  owner := ca.owner, color := ca.color,
                  army := ca.army + cd.army - max 1 (Int.fdiv (ca.army + cd.army) 2) }) },
         ⟨true, "attacker", a ++ " conquered " ++ d⟩) := by
      simp only [handle_attack, hscan]
      rw [if_neg (not_le.2 harmy)]
      simp only [if_true, if_false]
    rw [hred]
    refine ⟨rfl, ?_, ?_, ?_, ?_⟩
    · exact get?_set_pair_snd (get?_some_lt hidd)
    · exact get?_set_pair_fst (get?_some_lt hia) hneidx
    · refine List.mem_map.2 ⟨(lid, lp), hlm, ?_⟩
      simp [hln, hla]
    · refine List.mem_map.2 ⟨(wid, wp), hwm, ?_⟩
      simp [hwn, hne]
  · intro g a d ia idd ca cd lid lp hscan harmy howner hlm hln hla
    have hred : handle_attack g a d true =
        ({ g with
            players := (g.players.map (fun q =>
              if q.2.name = cd.owner ∧ d ∈ q.2.areas then
                (q.1, { q.2 with areas := q.2.areas.erase d })
              else if q.2.name = ca.owner then
                (q.1, { q.2 with areas := q.2.areas ++ [d] })
              else q)),
            countries := ((g.countries.set ia
                { ca with army := max 1 (Int.fdiv (ca.army + cd.army) 2) }).set idd
              { cd with
                  owner := ca.owner, color := ca.color,
                  army := ca.army + cd.army - max 1 (Int.fdiv (ca.army + cd.army) 2) }) },
         ⟨true, "attacker", a ++ " conquered " ++ d⟩) := by
      simp only [handle_attack, hscan]
      rw [if_neg (not_le.2 harmy)]
      simp only [if_true, if_false]
    rw [hred]
    constructor
    · refine List.mem_map.2 ⟨(lid, lp), hlm, ?_⟩
      simp [hln, hla]
    · intro q hq hqn
      refine List.mem_map.2 ⟨q, hq, ?_⟩
      simp [hqn, howner]
  · intro g a d ia idd ca cd hscan harmy
    obtain ⟨hia, hcan, hidd, hcdn, hnad, hneidx⟩ := scanCountries_sound hscan
    have hred : handle_attack g a d false =
        ({ g with
            countries := ((g.countries.set ia
                { ca with army := max 0 (ca.army - 2) }).set idd
              { cd with army := max 1 cd.army }) },
         ⟨true, "defender", d ++ " defended successfully"⟩) := by
      simp only [handle_attack, hscan]
      rw [if_neg (not_le.2 harmy)]
      rfl
    rw [hred]
    refine ⟨rfl, rfl, ?_, ?_⟩
    · exact get?_set_pair_fst (get?_some_lt hia) hneidx
    · exact get?_set_pair_snd (get?_some_lt hidd)

theorem C4_counterexample :
    (handle_attack selfAttackGame "c1" "c2" true).2.success = true ∧
    (handle_attack selfAttackGame "c1" "c2" true).2.winner = "attacker" ∧
    (∀ q ∈ (handle_attack selfAttackGame "c1" "c2" true).1.players,
      "c2" ∉ q.2.areas) := by
  refine ⟨by decide, by decide, by decide⟩

theorem C4_witness :
    (scanCountries "c1" "c2" duelGame.countries =
        (some (0, duelC1), some (1, duelC2)) ∧
      (1 : Int) < duelC1.army ∧ duelC1.owner ≠ duelC2.owner ∧
      ("r1", bluePlayer) ∈ duelGame.players ∧ bluePlayer.name = duelC2.owner ∧
      "c2" ∈ bluePlayer.areas ∧ ("r0", redPlayer) ∈ duelGame.players ∧
      redPlayer.name = duelC1.owner ∧
      (handle_attack duelGame "c1" "c2" true).2 =
        ⟨true, "attacker", "c1" ++ " conquered " ++ "c2"⟩ ∧
      (handle_attack duelGame "c1" "c2" true).1.countries.get? 1 =
        some { duelC2 with
                 owner := duelC1.owner, color := duelC1.color,
                 army := duelC1.army + duelC2.army -
                   max 1 (Int.fdiv (duelC1.army + duelC2.army) 2) } ∧
      (handle_attack duelGame "c1" "c2" true).1.countries.get? 0 =
        some { duelC1 with army := max 1 (Int.fdiv (duelC1.army + duelC2.army) 2) } ∧
      ("r1", { bluePlayer with areas := bluePlayer.areas.erase "c2" }) ∈
        (handle_attack duelGame "c1" "c2" true).1.players ∧
      ("r0", { redPlayer with areas := redPlayer.areas ++ ["c2"] }) ∈
        (handle_attack duelGame "c1" "c2" true).1.players) ∧
    (scanCountries "c1" "c2" selfAttackGame.countries =
        (some (0, soloC1), some (1, soloC2)) ∧
      (1 : Int) < soloC1.army ∧ soloC1.owner = soloC2.owner ∧
      ("q0", soloPlayer) ∈ selfAttackGame.players ∧ soloPlayer.name = soloC2.owner ∧
      "c2" ∈ soloPlayer.areas ∧
      ("q0", { soloPlayer with areas := soloPlayer.areas.erase "c2" }) ∈
        (handle_attack selfAttackGame "c1" "c2" true).1.players ∧
      (∀ q ∈ selfAttackGame.players, q.2.name ≠ soloC2.owner →
        q ∈ (handle_attack selfAttackGame "c1" "c2" true).1.players)) ∧
    ((handle_attack duelGame "c1" "c2" false).2 =
        ⟨true, "defender", "c2" ++ " defended successfully"⟩ ∧
      (handle_attack duelGame "c1" "c2" false).1.players = duelGame.players ∧
      (handle_attack duelGame "c1" "c2" false).1.countries.get? 0 =
        some { duelC1 with army := max 0 (duelC1.army - 2) } ∧
      (handle_attack duelGame "c1" "c2" false).1.countries.get? 1 =
        some { duelC2 with army := max 1 duelC2.army }) := by
  refine ⟨⟨by decide, by decide, by decide, by decide, by decide, by decide, by decide,
      by decide, ?_⟩,
    ⟨by decide, by decide, by decide, by decide, by decide, by decide, ?_⟩, ?_⟩
  · exact C4_attack_resolution_effects.1 duelGame "c1" "c2" 0 1 duelC1 duelC2
      "r1" "r0" bluePlayer redPlayer (by decide) (by decide) (by decide)
      (by decide) (by decide) (by decide) (by decide) (by decide)
  · exact C4_attack_resolution_effects.2.1 selfAttackGame "c1" "c2" 0 1 soloC1 soloC2
      "q0" soloPlayer (by decide) (by decide) (by decide) (by decide) (by decide)
      (by decide)
  · exact C4_attack_resolution_effects.2.2 duelGame "c1" "c2" 0 1 duelC1 duelC2
      (by decide) (by decide)

-- ### `start_game` supporting lemmas

theorem setupPlayers_map_name :
    ∀ (ps : List (String × Player)) (i : Nat),
      (setupPlayers i ps).map (fun q => q.2.name) = ps.map (fun q => q.2.name)
  | [], _ => rfl
  | (pid, p) :: rest, i => by
    simp only [setupPlayers, List.map_cons]
    rw [setupPlayers_map_name rest (i + 1)]

theorem areasMultiset_eq_zero {ps : List (String × Player)}
    (h : ∀ q ∈ ps, q.2.areas = []) : areasMultiset ps = 0 := by
  unfold areasMultiset
  refine List.sum_eq_zero ?_
  intro x hx
  rcases List.mem_map.1 hx with ⟨q, hq, rfl⟩
  rw [h q hq]
  rfl

-- A successful `start_game` stores back a session built from `setupPlayers`
-- and `distribute`; this equation names that post-state once for reuse.
theorem start_game_reduces {gm : GameManager} {gid : String} {game : GameState}
    (shuffled : List String) (draw : Nat → Int)
    (hg : dictGet gm.games gid = some game)
    (hp : 2 ≤ game.players.length) (hs : game.started = false) :
    start_game gm gid shuffled draw =
      ({ gm with games := (dictInsert gm.games gid
          { game with
             started := true
             stage := "fortify"
             players := (distribute draw 0 shuffled (setupPlayers 0 game.players)
               game.countries).1
             countries := (distribute draw 0 shuffled (setupPlayers 0 game.players)
               game.countries).2
             current_player_id :=
               (match setupPlayers 0 game.players with
                 | (pid, _) :: _ => pid
                 | [] => game.current_player_id) }) }, true) := by
  have hcond : ¬(game.players.length < 2 ∨ game.started = true) := by
    rintro (h | h)
    · omega
    · rw [hs] at h
      cases h
  simp only [start_game, hg]
  rw [if_neg hcond]

theorem setupPlayers_areas_nil {ps : List (String × Player)}
    (ha : ∀ q ∈ ps, q.2.areas = []) :
    ∀ i, ∀ q ∈ setupPlayers i ps, q.2.areas = [] := by
  intro i q hq
  rcases List.mem_iff_get?.1 hq with ⟨j, hj⟩
  rw [setupPlayers_get? ps i j] at hj
  cases hg : ps.get? j with
  | none => rw [hg] at hj; cases hj
  | some q0 =>
    rw [hg] at hj
    have hq0 : q0 ∈ ps := List.get?_mem hg
    have := Option.some_inj.1 hj
    rw [← this]
    exact ha q0 hq0

-- Every player record coming out of the distribution loop agrees with some
-- original joiner except for its `areas` list: key and name are preserved and
-- the setup loop has written color/army/reserve/bonus/alive.
theorem distribute_player_fields {draw : Nat → Int} {shuffled : List String}
    {ps0 : List (String × Player)} {cs : List Country} {j : Nat}
    {q : String × Player}
    (hj : (distribute draw 0 shuffled (setupPlayers 0 ps0) cs).1.get? j = some q) :
    ∃ q0, ps0.get? j = some q0 ∧ q.1 = q0.1 ∧
      q.2.color = startColors.getD (j % startColors.length) q0.2.color ∧
      q.2.army = 20 ∧ q.2.reserve = 20 ∧ q.2.bonus = 2 ∧ q.2.alive = true ∧
      q.2.name = q0.2.name := by
  have hstrip := distribute_stripAreas draw shuffled 0 (setupPlayers 0 ps0) cs
  have h1 : ((distribute draw 0 shuffled (setupPlayers 0 ps0) cs).1.map
      stripAreas).get? j = some (stripAreas q) := by
    rw [List.get?_map, hj]
    rfl
  rw [hstrip, List.get?_map, setupPlayers_get? ps0 0 j] at h1
  cases hg : ps0.get? j with
  | none => rw [hg] at h1; cases h1
  | some q0 =>
    rw [hg] at h1
    simp only [Option.map_some'] at h1
    have hse := Option.some_inj.1 h1
    refine ⟨q0, rfl, ?_, ?_, ?_, ?_, ?_, ?_, ?_⟩
    · exact (congrArg Prod.fst hse).symm
    · have := congrArg (fun r => r.2.color) hse
      simp only [stripAreas, Nat.zero_add] at this
      exact this.symm
    · have := congrArg (fun r => r.2.army) hse
      simp only [stripAreas] at this
      exact this.symm
    · have := congrArg (fun r => r.2.reserve) hse
      simp only [stripAreas] at this
      exact this.symm
    · have := congrArg (fun r => r.2.bonus) hse
      simp only [stripAreas] at this
      exact this.symm
    · have := congrArg (fun r => r.2.alive) hse
      simp only [stripAreas] at this
      exact this.symm
    · have := congrArg (fun r => r.2.name) hse
      simp only [stripAreas] at this
      exact this.symm

/-- C3: on a session with at least two players that has not started, holding
the 42-country template, `start_game` succeeds, and afterwards every player
has army 20, reserve 20, bonus 2 and is alive, colors are assigned from the
fixed 6-entry palette cycling by join order, the current player id is the
first joiner's key, the stage is fortify and the session is started, the
shuffled territory names are assigned round-robin to players in join order
with each assigned country's owner and color copied from its owning player
and its army drawn from `{1, 2, 3}`, each assignment is mirrored into the
owner's `areas`, and the multiset union of all players' `areas` equals the
42-name template set exactly once each. -/
theorem C3_start_game_success
    (gm : GameManager) (gid : String) (game : GameState)
    (shuffled : List String) (draw : Nat → Int)
    (hg : dictGet gm.games gid = some game)
    (hc : game.countries = defaultCountries)
    (hp : 2 ≤ game.players.length)
    (hs : game.started = false)
    (ha : ∀ q ∈ game.players, q.2.areas = [])
    (hperm : shuffled.Perm (countryNames defaultCountries))
    (hdraw : ∀ i, 1 ≤ draw i ∧ draw i ≤ 3) :
    (start_game gm gid shuffled draw).2 = true ∧
    ∃ g', dictGet (start_game gm gid shuffled draw).1.games gid = some g' ∧
      startPost g' shuffled draw := by
  rw [start_game_reduces shuffled draw hg hp hs]
  refine ⟨rfl, ⟨_, dictGet_dictInsert_self _ _ _, ?_⟩⟩
  have hndT : (countryNames defaultCountries).Nodup := by decide
  have hndS : shuffled.Nodup := hperm.nodup_iff.2 hndT
  have hsub : ∀ y ∈ shuffled, y ∈ game.countries.map (fun c => c.name) := by
    intro y hy
    rw [hc]
    exact hperm.mem_iff.1 hy
  have hlen1 : (setupPlayers 0 game.players).length = game.players.length :=
    setupPlayers_length _ _
  have hps1ne : setupPlayers 0 game.players ≠ [] := by
    intro h
    rw [h] at hlen1
    simp only [List.length_nil] at hlen1
    omega
  have hlenres : (distribute draw 0 shuffled (setupPlayers 0 game.players)
      game.countries).1.length = (setupPlayers 0 game.players).length :=
    distribute_length draw shuffled 0 _ _
  refine ⟨rfl, rfl, ?_, ?_, ?_, ?_, ?_⟩
  · intro q hq
    rcases List.mem_iff_get?.1 hq with ⟨j, hj⟩
    obtain ⟨q0, _, _, _, h20, hres, hbon, hal, _⟩ := distribute_player_fields hj
    exact ⟨h20, hres, hbon, hal⟩
  · intro j q hj
    obtain ⟨q0, _, _, hcol, _, _, _, _, _⟩ := distribute_player_fields hj
    have hlt : j % startColors.length < startColors.length := by
      refine Nat.mod_lt j ?_
      decide
    rw [List.get?_eq_get hlt, hcol, List.getD_eq_get?, List.get?_eq_get hlt]
    rfl
  · intro q hq0
    cases hcase : setupPlayers 0 game.players with
    | nil => exact absurd hcase hps1ne
    | cons q1 tail =>
      have hq0' : (distribute draw 0 shuffled (setupPlayers 0 game.players)
          game.countries).1.get? 0 = some q := hq0
      obtain ⟨q0, hg0, hkey, _, _, _, _, _, _⟩ := distribute_player_fields hq0'
      have h1 : (setupPlayers 0 game.players).get? 0 = some q1 := by
        rw [hcase]
        rfl
      rw [setupPlayers_get? game.players 0 0, hg0] at h1
      simp only [Option.map_some'] at h1
      have hq1 := Option.some_inj.1 h1
      show q1.1 = q.1
      rw [hkey, ← hq1]
  · intro j h
    have hassign := distribute_assigns draw shuffled 0 (setupPlayers 0 game.players)
      game.countries hndS hsub hps1ne j h
    rw [Nat.zero_add] at hassign
    obtain ⟨p, hp1, hp2, c, hcmem, hcn, hco, hcc, hca⟩ := hassign
    rw [hlen1] at hp1
    refine ⟨p, ?_, hp2, c, hcmem, hcn, hco, hcc, hca, (hdraw j).1, (hdraw j).2⟩
    have hll : (distribute draw 0 shuffled (setupPlayers 0 game.players)
        game.countries).1.length = game.players.length := by
      rw [hlenres, hlen1]
    rw [hll]
    exact hp1
  · have hms := distribute_areasMultiset draw shuffled 0 (setupPlayers 0 game.players)
      game.countries hps1ne hsub
    have hz : areasMultiset (setupPlayers 0 game.players) = 0 :=
      areasMultiset_eq_zero (setupPlayers_areas_nil ha 0)
    show areasMultiset _ = _
    rw [hms, hz, zero_add]
    exact Multiset.coe_eq_coe.2 hperm

theorem C3_witness :
    (dictGet testGM0.games "g" = some testGame0 ∧
      testGame0.countries = defaultCountries ∧
      2 ≤ testGame0.players.length ∧
      testGame0.started = false ∧
      (∀ q ∈ testGame0.players, q.2.areas = []) ∧
      testShuffle.Perm (countryNames defaultCountries) ∧
      (∀ i : Nat, (1 : Int) ≤ (fun _ => (1 : Int)) i ∧ (fun _ => (1 : Int)) i ≤ 3)) ∧
    ((start_game testGM0 "g" testShuffle (fun _ => 1)).2 = true ∧
      ∃ g', dictGet (start_game testGM0 "g" testShuffle (fun _ => 1)).1.games "g" =
        some g' ∧ startPost g' testShuffle (fun _ => 1)) :=
  ⟨⟨rfl, rfl, by decide, rfl, by decide, List.Perm.refl _, fun _ => ⟨le_refl 1, by show (1 : Int) ≤ 3; decide⟩⟩,
   C3_start_game_success testGM0 "g" testGame0 testShuffle (fun _ => 1) rfl rfl
     (by decide) rfl (by decide) (List.Perm.refl _) (fun _ => ⟨le_refl 1, by show (1 : Int) ≤ 3; decide⟩)⟩

-- ### Ownership-correspondence helpers (claim C1)

theorem handle_attack_failure_state (g : GameState) (a d : String) (win : Bool)
    (h : (handle_attack g a d win).2.success = false) :
    (handle_attack g a d win).1 = g := by
  rcases hscan : scanCountries a d g.countries with ⟨o1, o2⟩
  cases o1 with
  | none => simp [handle_attack, hscan]
  | some p1 =>
    cases o2 with
    | none => simp [handle_attack, hscan]
    | some p2 =>
      rcases p1 with ⟨ia, ca⟩
      rcases p2 with ⟨idd, cd⟩
      by_cases harmy : ca.army ≤ 1
      · simp [handle_attack, hscan, harmy]
      · exfalso
        cases win
        · simp [handle_attack, hscan, harmy] at h
        · simp [handle_attack, hscan, harmy] at h

theorem start_establishes_inv
    (gm : GameManager) (gid : String) (game : GameState)
    (shuffled : List String) (draw : Nat → Int)
    (hg : dictGet gm.games gid = some game)
    (hc : game.countries = defaultCountries)
    (hp : 2 ≤ game.players.length)
    (hs : game.started = false)
    (ha : ∀ q ∈ game.players, q.2.areas = [])
    (hnames : (game.players.map (fun q => q.2.name)).Nodup)
    (hperm : shuffled.Perm (countryNames defaultCountries)) :
    ∀ g', dictGet (start_game gm gid shuffled draw).1.games gid = some g' →
      playerAreasOwnedByName g' := by
  rw [start_game_reduces shuffled draw hg hp hs]
  intro g' hg'
  rw [dictGet_dictInsert_self] at hg'
  have hgg := Option.some_inj.1 hg'
  rw [← hgg]
  have hndT : (countryNames defaultCountries).Nodup := by decide
  have hndS : shuffled.Nodup := hperm.nodup_iff.2 hndT
  have hsub : ∀ y ∈ shuffled, y ∈ game.countries.map (fun c => c.name) := by
    intro y hy
    rw [hc]
    exact hperm.mem_iff.1 hy
  have hndC : (game.countries.map (fun c => c.name)).Nodup := by
    rw [hc]
    exact hndT
  have hndN : ((setupPlayers 0 game.players).map (fun q => q.2.name)).Nodup := by
    rw [setupPlayers_map_name]
    exact hnames
  have hInv0 : InvP shuffled (setupPlayers 0 game.players) game.countries := by
    intro j q hj
    rw [setupPlayers_get? game.players 0 j] at hj
    cases hg0 : game.players.get? j with
    | none => rw [hg0] at hj; cases hj
    | some q0 =>
      rw [hg0] at hj
      simp only [Option.map_some'] at hj
      have hqq := Option.some_inj.1 hj
      have harea : q.2.areas = [] := by
        rw [← hqq]
        exact ha q0 (List.get?_mem hg0)
      refine ⟨by rw [harea]; exact List.nodup_nil, ?_, ?_⟩
      · intro x hx
        rw [harea] at hx
        cases hx
      · intro c hcm howner hnp
        exfalso
        refine hnp ?_
        refine hperm.mem_iff.2 ?_
        rw [← hc]
        exact List.mem_map_of_mem (fun c => c.name) hcm
  have hfinal := distribute_InvP draw shuffled 0 (setupPlayers 0 game.players)
    game.countries hndS hsub hndC hndN hInv0
  intro q hq
  rcases List.mem_iff_get?.1 hq with ⟨j, hj⟩
  obtain ⟨hnd0, hfwd, hbwd⟩ := hfinal j q hj
  refine ⟨hnd0, ?_, ?_⟩
  · intro x hx
    obtain ⟨c, hcm, hcn, hco, _⟩ := hfwd x hx
    exact ⟨c, hcm, hcn, hco⟩
  · intro c hcm howner
    exact hbwd c hcm howner (List.not_mem_nil _)

theorem attack_win_preserves_inv
    {g : GameState} {a d : String} {ia idd : Nat} {ca cd : Country}
    (hscan : scanCountries a d g.countries = (some (ia, ca), some (idd, cd)))
    (harmy : 1 < ca.army)
    (hne : ca.owner ≠ cd.owner)
    (hndC : (g.countries.map (fun c => c.name)).Nodup)
    (hInv : playerAreasOwnedByName g) :
    playerAreasOwnedByName (handle_attack g a d true).1 := by
  obtain ⟨hia, hcan, hidd, hcdn, hnad, hneidx⟩ := scanCountries_sound hscan
  have hred : handle_attack g a d true =
      ({ g with
          players := (g.players.map (fun q =>
            if q.2.name = cd.owner ∧ d ∈ q.2.areas then
              (q.1, { q.2 with areas := q.2.areas.erase d })
            else if q.2.name = ca.owner then
              (q.1, { q.2 with areas := q.2.areas ++ [d] })
            else q)),
          countries := ((g.countries.set ia
              { ca with army := max 1 (Int.fdiv (ca.army + cd.army) 2) }).set idd
            { cd with
                owner := ca.owner, color := ca.color,
                army := ca.army + cd.army - max 1 (Int.fdiv (ca.army + cd.army) 2) }) },
       ⟨true, "attacker", a ++ " conquered " ++ d⟩) := by
    simp only [handle_attack, hscan]
    rw [if_neg (not_le.2 harmy)]
    simp only [if_true, if_false]
  rw [hred]
  have hnamesne : ca.name ≠ cd.name := by
    rw [hcan, hcdn]
    exact hnad
  have hxmem : ({ ca with army := max 1 (Int.fdiv (ca.army + cd.army) 2) } : Country) ∈
      ((g.countries.set ia { ca with army := max 1 (Int.fdiv (ca.army + cd.army) 2) }).set idd
        { cd with
            owner := ca.owner, color := ca.color,
            army := ca.army + cd.army - max 1 (Int.fdiv (ca.army + cd.army) 2) }) :=
    List.get?_mem (get?_set_pair_fst (get?_some_lt hia) hneidx)
  have hymem : ({ cd with
      owner := ca.owner, color := ca.color,
      army := ca.army + cd.army - max 1 (Int.fdiv (ca.army + cd.army) 2) } : Country) ∈
      ((g.countries.set ia { ca with army := max 1 (Int.fdiv (ca.army + cd.army) 2) }).set idd
        { cd with
            owner := ca.owner, color := ca.color,
            army := ca.army + cd.army - max 1 (Int.fdiv (ca.army + cd.army) 2) }) :=
    List.get?_mem (get?_set_pair_snd (get?_some_lt hidd))
  intro q' hq'
  rcases List.mem_map.1 hq' with ⟨q, hq, hfq⟩
  obtain ⟨hnd0, hfwd0, hbwd0⟩ := hInv q hq
  simp only at hfq
  by_cases h1 : q.2.name = cd.owner ∧ d ∈ q.2.areas
  · rw [if_pos h1] at hfq
    subst hfq
    refine ⟨List.Nodup.sublist (List.erase_sublist d q.2.areas) hnd0, ?_, ?_⟩
    · intro x0 hx0
      have hx0m : x0 ∈ q.2.areas := List.mem_of_mem_erase hx0
      have hx0d : x0 ≠ d := by
        intro he
        exact nodup_not_mem_erase hnd0 (he ▸ hx0)
      obtain ⟨c, hcm, hcn, hco⟩ := hfwd0 x0 hx0m
      have hx0a : c.name ≠ ca.name := by
        intro he
        have hcc : c = ca := mem_name_eq_of_nodup hndC hcm (List.get?_mem hia) he
        rw [hcc] at hco
        exact hne (hco.trans h1.1)
      refine ⟨c, mem_set_pair_preserve hia hidd hcm hx0a ?_, hcn, hco⟩
      rw [hcn, hcdn]
      exact hx0d
    · intro c' hc' howner
      by_cases hna : c'.name = ca.name
      · exfalso
        have hcx := mem_set_pair_name_fst hndC hia hidd hneidx hnamesne hc' hna rfl
        rw [hcx] at howner
        exact hne (howner.trans h1.1)
      · by_cases hnd2 : c'.name = cd.name
        · exfalso
          have hcy := mem_set_pair_name_snd hndC hia hidd hneidx hnamesne hc' hnd2 rfl
          rw [hcy] at howner
          exact hne (howner.trans h1.1)
        · have hcm : c' ∈ g.countries := by
            rcases mem_set_pair hc' with rfl | rfl | hmem
            · exact absurd rfl hna
            · exact absurd rfl hnd2
            · exact hmem
          have hin := hbwd0 c' hcm howner
          refine List.mem_erase_of_ne ?_ |>.2 hin
          rw [← hcdn]
          exact hnd2
  · by_cases h2 : q.2.name = ca.owner
    · rw [if_neg h1, if_pos h2] at hfq
      subst hfq
      have hdna : d ∉ q.2.areas := by
        intro hd
        obtain ⟨c, hcm, hcn, hco⟩ := hfwd0 d hd
        have hcc : c = cd := mem_name_eq_of_nodup hndC hcm (List.get?_mem hidd)
          (hcn.trans hcdn.symm)
        rw [hcc] at hco
        exact hne (h2 ▸ hco.symm)
      refine ⟨List.Nodup.append hnd0 (List.nodup_singleton d) ?_, ?_, ?_⟩
      · intro x0 hx0 hxd
        exact hdna ((List.mem_singleton.1 hxd) ▸ hx0)
      · intro x0 hx0
        rcases List.mem_append.1 hx0 with hx0 | hx0
        · obtain ⟨c, hcm, hcn, hco⟩ := hfwd0 x0 hx0
          by_cases hca0 : x0 = ca.name
          · refine ⟨{ ca with army := max 1 (Int.fdiv (ca.army + cd.army) 2) },
              hxmem, hca0.symm, h2.symm⟩
          · by_cases hcd0 : x0 = cd.name
            · exfalso
              have hcc : c = cd := mem_name_eq_of_nodup hndC hcm (List.get?_mem hidd)
                (hcn.trans hcd0)
              rw [hcc] at hco
              exact hne (h2 ▸ hco.symm)
            · refine ⟨c, mem_set_pair_preserve hia hidd hcm ?_ ?_, hcn, hco⟩
              · rw [hcn]; exact hca0
              · rw [hcn]; exact hcd0
        · rw [List.mem_singleton.1 hx0]
          refine ⟨{ cd with
              owner := ca.owner, color := ca.color,
              army := ca.army + cd.army - max 1 (Int.fdiv (ca.army + cd.army) 2) },
            hymem, hcdn, h2.symm⟩
      · intro c' hc' howner
        by_cases hna : c'.name = ca.name
        · have hin : ca.name ∈ q.2.areas := hbwd0 ca (List.get?_mem hia) h2.symm
          exact List.mem_append.2 (Or.inl (hna ▸ hin))
        · by_cases hnd2 : c'.name = cd.name
          · refine List.mem_append.2 (Or.inr ?_)
            rw [hnd2, hcdn]
            exact List.mem_singleton.2 rfl
          · have hcm : c' ∈ g.countries := by
              rcases mem_set_pair hc' with rfl | rfl | hmem
              · exact absurd rfl hna
              · exact absurd rfl hnd2
              · exact hmem
            exact List.mem_append.2 (Or.inl (hbwd0 c' hcm howner))
    · rw [if_neg h1, if_neg h2] at hfq
      subst hfq
      refine ⟨hnd0, ?_, ?_⟩
      · intro x0 hx0
        obtain ⟨c, hcm, hcn, hco⟩ := hfwd0 x0 hx0
        by_cases hca0 : x0 = ca.name
        · exfalso
          have hcc : c = ca := mem_name_eq_of_nodup hndC hcm (List.get?_mem hia)
            (hcn.trans hca0)
          rw [hcc] at hco
          exact h2 hco.symm
        · by_cases hcd0 : x0 = cd.name
          · exfalso
            have hcc : c = cd := mem_name_eq_of_nodup hndC hcm (List.get?_mem hidd)
              (hcn.trans hcd0)
            rw [hcc] at hco
            refine h1 ⟨hco.symm, ?_⟩
            rw [← hcdn, ← hcd0]
            exact hx0
          · refine ⟨c, mem_set_pair_preserve hia hidd hcm ?_ ?_, hcn, hco⟩
            · rw [hcn]; exact hca0
            · rw [hcn]; exact hcd0
      · intro c' hc' howner
        by_cases hna : c'.name = ca.name
        · exfalso
          have hcx := mem_set_pair_name_fst hndC hia hidd hneidx hnamesne hc' hna rfl
          rw [hcx] at howner
          exact h2 howner.symm
        · by_cases hnd2 : c'.name = cd.name
          · exfalso
            have hcy := mem_set_pair_name_snd hndC hia hidd hneidx hnamesne hc' hnd2 rfl
            rw [hcy] at howner
            exact h2 howner.symm
          · have hcm : c' ∈ g.countries := by
              rcases mem_set_pair hc' with rfl | rfl | hmem
              · exact absurd rfl hna
              · exact absurd rfl hnd2
              · exact hmem
            exact hbwd0 c' hcm howner

theorem attack_loss_preserves_inv
    {g : GameState} {a d : String} {ia idd : Nat} {ca cd : Country}
    (hscan : scanCountries a d g.countries = (some (ia, ca), some (idd, cd)))
    (harmy : 1 < ca.army)
    (hndC : (g.countries.map (fun c => c.name)).Nodup)
    (hInv : playerAreasOwnedByName g) :
    playerAreasOwnedByName (handle_attack g a d false).1 := by
  obtain ⟨hia, hcan, hidd, hcdn, hnad, hneidx⟩ := scanCountries_sound hscan
  have hred : handle_attack g a d false =
      ({ g with
          countries := ((g.countries.set ia
              { ca with army := max 0 (ca.army - 2) }).set idd
            { cd with army := max 1 cd.army }) },
       ⟨true, "defender", d ++ " defended successfully"⟩) := by
    simp only [handle_attack, hscan]
    rw [if_neg (not_le.2 harmy)]
    rfl
  rw [hred]
  have hxmem : ({ ca with army := max 0 (ca.army - 2) } : Country) ∈
      ((g.countries.set ia { ca with army := max 0 (ca.army - 2) }).set idd
        { cd with army := max 1 cd.army }) :=
    List.get?_mem (get?_set_pair_fst (get?_some_lt hia) hneidx)
  have hymem : ({ cd with army := max 1 cd.army } : Country) ∈
      ((g.countries.set ia { ca with army := max 0 (ca.army - 2) }).set idd
        { cd with army := max 1 cd.army }) :=
    List.get?_mem (get?_set_pair_snd (get?_some_lt hidd))
  intro q hq
  obtain ⟨hnd0, hfwd0, hbwd0⟩ := hInv q hq
  refine ⟨hnd0, ?_, ?_⟩
  · intro x0 hx0
    obtain ⟨c, hcm, hcn, hco⟩ := hfwd0 x0 hx0
    by_cases hca0 : x0 = ca.name
    · have hcc : c = ca := mem_name_eq_of_nodup hndC hcm (List.get?_mem hia)
        (hcn.trans hca0)
      refine ⟨{ ca with army := max 0 (ca.army - 2) }, hxmem, hca0.symm, ?_⟩
      rw [← hcc]
      exact hco
    · by_cases hcd0 : x0 = cd.name
      · have hcc : c = cd := mem_name_eq_of_nodup hndC hcm (List.get?_mem hidd)
          (hcn.trans hcd0)
        refine ⟨{ cd with army := max 1 cd.army }, hymem, hcd0.symm, ?_⟩
        rw [← hcc]
        exact hco
      · refine ⟨c, mem_set_pair_preserve hia hidd hcm ?_ ?_, hcn, hco⟩
        · rw [hcn]; exact hca0
        · rw [hcn]; exact hcd0
  · intro c' hc' howner
    rcases mem_set_pair hc' with rfl | rfl | hmem
    · exact hbwd0 ca (List.get?_mem hia) howner
    · exact hbwd0 cd (List.get?_mem hidd) howner
    · exact hbwd0 c' hmem howner

/-- C1 (amended): the territory `owner` fields store the owning player's
display name (`player.name`), not `player.id`.  With that reading the
correspondence holds: a successful `start_game` on a fresh template session
whose players carry distinct display names leaves every player's `areas`
equal, without duplicates, to the set of countries whose `owner` is that
player's name; a successful attack resolution between two territories with
distinct pre-attack owners preserves this correspondence, as does every
defender-win resolution and every failed resolution (an attacker win between
two same-owner territories is excluded: it breaks the correspondence by
removing the defender territory from the owner's list without appending
it). -/
theorem C1_areas_owner_correspondence :
    (∀ (gm : GameManager) (gid : String) (game : GameState)
       (shuffled : List String) (draw : Nat → Int),
      dictGet gm.games gid = some game →
      game.countries = defaultCountries →
      2 ≤ game.players.length →
      game.started = false →
      (∀ q ∈ game.players, q.2.areas = []) →
      (game.players.map (fun q => q.2.name)).Nodup →
      shuffled.Perm (countryNames defaultCountries) →
      ∀ g', dictGet (start_game gm gid shuffled draw).1.games gid = some g' →
        playerAreasOwnedByName g') ∧
    (∀ (g : GameState) (a d : String) (ia idd : Nat) (ca cd : Country),
      scanCountries a d g.countries = (some (ia, ca), some (idd, cd)) →
      1 < ca.army → ca.owner ≠ cd.owner →
      (g.countries.map (fun c => c.name)).Nodup →
      playerAreasOwnedByName g →
      playerAreasOwnedByName (handle_attack g a d true).1) ∧
    (∀ (g : GameState) (a d : String) (ia idd : Nat) (ca cd : Country),
      scanCountries a d g.countries = (some (ia, ca), some (idd, cd)) →
      1 < ca.army →
      (g.countries.map (fun c => c.name)).Nodup →
      playerAreasOwnedByName g →
      playerAreasOwnedByName (handle_attack g a d false).1) ∧
    (∀ (g : GameState) (a d : String) (win : Bool),
      (handle_attack g a d win).2.success = false →
      playerAreasOwnedByName g →
      playerAreasOwnedByName (handle_attack g a d win).1) := by
  refine ⟨?_, ?_, ?_, ?_⟩
  · intro gm gid game shuffled draw hg hc hp hs ha hnames hperm
    exact start_establishes_inv gm gid game shuffled draw hg hc hp hs ha hnames hperm
  · intro g a d ia idd ca cd hscan harmy hne hndC hInv
    exact attack_win_preserves_inv hscan harmy hne hndC hInv
  · intro g a d ia idd ca cd hscan harmy hndC hInv
    exact attack_loss_preserves_inv hscan harmy hndC hInv
  · intro g a d win hfail hInv
    rw [handle_attack_failure_state g a d win hfail]
    exact hInv

theorem C1_counterexample :
    testG1.started = true ∧ ¬ playerAreasOwnedById testG1 := by
  constructor
  · decide
  · unfold playerAreasOwnedById
    decide

theorem C1_witness :
    (dictGet testGM0.games "g" = some testGame0 ∧
      (testGame0.players.map (fun q => q.2.name)).Nodup ∧
      dictGet (start_game testGM0 "g" testShuffle (fun _ => 2)).1.games "g" =
        some testG1 ∧
      playerAreasOwnedByName testG1) ∧
    (scanCountries "c1" "c2" duelGame.countries =
        (some (0, duelC1), some (1, duelC2)) ∧
      (1 : Int) < duelC1.army ∧ duelC1.owner ≠ duelC2.owner ∧
      playerAreasOwnedByName duelGame ∧
      playerAreasOwnedByName (handle_attack duelGame "c1" "c2" true).1) ∧
    (playerAreasOwnedByName (handle_attack duelGame "c1" "c2" false).1) ∧
    ((handle_attack duelGame "zz" "c2" true).2.success = false ∧
      playerAreasOwnedByName (handle_attack duelGame "zz" "c2" true).1) := by
  have hInvDuel : playerAreasOwnedByName duelGame := by
    unfold playerAreasOwnedByName
    decide
  have hstore : dictGet (start_game testGM0 "g" testShuffle (fun _ => 2)).1.games "g" =
      some testG1 := by decide
  refine ⟨⟨rfl, by decide, hstore, ?_⟩, ⟨by decide, by decide, by decide, hInvDuel, ?_⟩,
    ?_, ⟨by decide, ?_⟩⟩
  · exact C1_areas_owner_correspondence.1 testGM0 "g" testGame0 testShuffle
      (fun _ => 2) rfl rfl (by decide) rfl (by decide) (by decide)
      (List.Perm.refl _) testG1 hstore
  · exact C1_areas_owner_correspondence.2.1 duelGame "c1" "c2" 0 1 duelC1 duelC2
      (by decide) (by decide) (by decide) (by decide) hInvDuel
  · exact C1_areas_owner_correspondence.2.2.1 duelGame "c1" "c2" 0 1 duelC1 duelC2
      (by decide) (by decide) (by decide) hInvDuel
  · exact C1_areas_owner_correspondence.2.2.2 duelGame "zz" "c2" true (by decide) hInvDuel

-- ### Sum-of-areas conservation lemmas (claim C2)

theorem sumAreas_cons (q : String × Player) (t : List (String × Player)) :
    sumAreas (q :: t) = q.2.areas.length + sumAreas t := by
  simp [sumAreas]

theorem sumAreas_eq_card : ∀ ps : List (String × Player),
    sumAreas ps = Multiset.card (areasMultiset ps)
  | [] => rfl
  | q :: t => by
    have ih := sumAreas_eq_card t
    rw [sumAreas_cons]
    have hcons : areasMultiset (q :: t) = (q.2.areas : Multiset String) + areasMultiset t := by
      simp [areasMultiset]
    rw [hcons, Multiset.card_add, Multiset.coe_card, ih]

theorem map_attackAreasUpdate_id {dOwn aOwn d : String} :
    ∀ ps : List (String × Player),
      (∀ q ∈ ps, ¬(q.2.name = dOwn ∧ d ∈ q.2.areas) ∧ q.2.name ≠ aOwn) →
      ps.map (attackAreasUpdate dOwn aOwn d) = ps
  | [], _ => rfl
  | q :: t, h => by
    have hq := h q (List.mem_cons_self q t)
    simp only [List.map_cons]
    rw [show attackAreasUpdate dOwn aOwn d q = q by
      unfold attackAreasUpdate
      rw [if_neg hq.1, if_neg hq.2]]
    rw [map_attackAreasUpdate_id t (fun q' hq' => h q' (List.mem_cons_of_mem _ hq'))]

theorem sumAreas_map_winner {dOwn aOwn d : String} :
    ∀ ps : List (String × Player),
      (ps.map (fun q => q.2.name)).Nodup →
      (∀ q ∈ ps, ¬(q.2.name = dOwn ∧ d ∈ q.2.areas)) →
      (∃ q ∈ ps, q.2.name = aOwn) →
      sumAreas (ps.map (attackAreasUpdate dOwn aOwn d)) = sumAreas ps + 1
  | [], _, _, hw => by
    rcases hw with ⟨q, hq, _⟩
    cases hq
  | q :: t, hnd, hno, hw => by
    simp only [List.map_cons, List.nodup_cons] at hnd
    by_cases hqa : q.2.name = aOwn
    · have hfq : attackAreasUpdate dOwn aOwn d q =
          (q.1, { q.2 with areas := q.2.areas ++ [d] }) := by
        unfold attackAreasUpdate
        rw [if_neg (hno q (List.mem_cons_self q t)), if_pos hqa]
      have htid : t.map (attackAreasUpdate dOwn aOwn d) = t := by
        refine map_attackAreasUpdate_id t ?_
        intro q' hq'
        refine ⟨hno q' (List.mem_cons_of_mem _ hq'), ?_⟩
        intro he
        refine hnd.1 ?_
        rw [hqa, ← he]
        exact List.mem_map_of_mem (fun q => q.2.name) hq'
      rw [List.map_cons, hfq, htid, sumAreas_cons, sumAreas_cons]
      have hlen : ((q.1, { q.2 with areas := q.2.areas ++ [d] }) :
          String × Player).2.areas.length = q.2.areas.length + 1 := by
        simp
      omega
    · have hfq : attackAreasUpdate dOwn aOwn d q = q := by
        unfold attackAreasUpdate
        rw [if_neg (hno q (List.mem_cons_self q t)), if_neg hqa]
      have hw' : ∃ q' ∈ t, q'.2.name = aOwn := by
        rcases hw with ⟨q', hq', hqn⟩
        rcases List.mem_cons.1 hq' with rfl | hq'
        · exact absurd hqn hqa
        · exact ⟨q', hq', hqn⟩
      have ih := sumAreas_map_winner t hnd.2
        (fun q' hq' => hno q' (List.mem_cons_of_mem _ hq')) hw'
      rw [List.map_cons, hfq, sumAreas_cons, sumAreas_cons, ih]
      omega

theorem sumAreas_map_loser {dOwn aOwn d : String} :
    ∀ ps : List (String × Player),
      (ps.map (fun q => q.2.name)).Nodup →
      (∀ q ∈ ps, q.2.name ≠ aOwn) →
      (∃ q ∈ ps, q.2.name = dOwn ∧ d ∈ q.2.areas) →
      sumAreas (ps.map (attackAreasUpdate dOwn aOwn d)) + 1 = sumAreas ps
  | [], _, _, hl => by
    rcases hl with ⟨q, hq, _⟩
    cases hq
  | q :: t, hnd, hna, hl => by
    simp only [List.map_cons, List.nodup_cons] at hnd
    by_cases hq1 : q.2.name = dOwn ∧ d ∈ q.2.areas
    · have hfq : attackAreasUpdate dOwn aOwn d q =
          (q.1, { q.2 with areas := q.2.areas.erase d }) := by
        unfold attackAreasUpdate
        rw [if_pos hq1]
      have htid : t.map (attackAreasUpdate dOwn aOwn d) = t := by
        refine map_attackAreasUpdate_id t ?_
        intro q' hq'
        refine ⟨?_, hna q' (List.mem_cons_of_mem _ hq')⟩
        rintro ⟨he, -⟩
        refine hnd.1 ?_
        rw [hq1.1, ← he]
        exact List.mem_map_of_mem (fun q => q.2.name) hq'
      have hlen : (q.2.areas.erase d).length + 1 = q.2.areas.length := by
        rw [List.length_erase_of_mem hq1.2]
        have h1 : 1 ≤ q.2.areas.length := List.length_pos.2 (List.ne_nil_of_mem hq1.2)
        omega
      rw [List.map_cons, hfq, htid, sumAreas_cons, sumAreas_cons]
      have hsh : ((q.1, { q.2 with areas := q.2.areas.erase d }) :
          String × Player).2.areas.length = (q.2.areas.erase d).length := rfl
      omega
    · have hfq : attackAreasUpdate dOwn aOwn d q = q := by
        unfold attackAreasUpdate
        rw [if_neg hq1, if_neg (hna q (List.mem_cons_self q t))]
      have hl' : ∃ q' ∈ t, q'.2.name = dOwn ∧ d ∈ q'.2.areas := by
        rcases hl with ⟨q', hq', hqn⟩
        rcases List.mem_cons.1 hq' with rfl | hq'
        · exact absurd hqn hq1
        · exact ⟨q', hq', hqn⟩
      have ih := sumAreas_map_loser t hnd.2
        (fun q' hq' => hna q' (List.mem_cons_of_mem _ hq')) hl'
      rw [List.map_cons, hfq, sumAreas_cons, sumAreas_cons]
      omega

theorem sumAreas_map_attack {dOwn aOwn d : String} (hne : aOwn ≠ dOwn) :
    ∀ ps : List (String × Player),
      (ps.map (fun q => q.2.name)).Nodup →
      (∃ q ∈ ps, q.2.name = dOwn ∧ d ∈ q.2.areas) →
      (∃ q ∈ ps, q.2.name = aOwn) →
      sumAreas (ps.map (attackAreasUpdate dOwn aOwn d)) = sumAreas ps
  | [], _, hl, _ => by
    rcases hl with ⟨q, hq, _⟩
    cases hq
  | q :: t, hnd, hl, hw => by
    simp only [List.map_cons, List.nodup_cons] at hnd
    by_cases hq1 : q.2.name = dOwn ∧ d ∈ q.2.areas
    · have hfq : attackAreasUpdate dOwn aOwn d q =
          (q.1, { q.2 with areas := q.2.areas.erase d }) := by
        unfold attackAreasUpdate
        rw [if_pos hq1]
      have hw' : ∃ q' ∈ t, q'.2.name = aOwn := by
        rcases hw with ⟨q', hq', hqn⟩
        rcases List.mem_cons.1 hq' with rfl | hq'
        · exact absurd (hqn.symm.trans hq1.1) hne
        · exact ⟨q', hq', hqn⟩
      have hno : ∀ q' ∈ t, ¬(q'.2.name = dOwn ∧ d ∈ q'.2.areas) := by
        intro q' hq'
        rintro ⟨he, -⟩
        refine hnd.1 ?_
        rw [hq1.1, ← he]
        exact List.mem_map_of_mem (fun q => q.2.name) hq'
      have ihw := sumAreas_map_winner t hnd.2 hno hw'
      have hlen : (q.2.areas.erase d).length + 1 = q.2.areas.length := by
        rw [List.length_erase_of_mem hq1.2]
        have h1 : 1 ≤ q.2.areas.length := List.length_pos.2 (List.ne_nil_of_mem hq1.2)
        omega
      rw [List.map_cons, hfq, sumAreas_cons, sumAreas_cons, ihw]
      have hsh : ((q.1, { q.2 with areas := q.2.areas.erase d }) :
          String × Player).2.areas.length = (q.2.areas.erase d).length := rfl
      omega
    · by_cases hqa : q.2.name = aOwn
      · have hfq : attackAreasUpdate dOwn aOwn d q =
            (q.1, { q.2 with areas := q.2.areas ++ [d] }) := by
          unfold attackAreasUpdate
          rw [if_neg hq1, if_pos hqa]
        have hl' : ∃ q' ∈ t, q'.2.name = dOwn ∧ d ∈ q'.2.areas := by
          rcases hl with ⟨q', hq', hqn⟩
          rcases List.mem_cons.1 hq' with rfl | hq'
          · exact absurd hqn hq1
          · exact ⟨q', hq', hqn⟩
        have hna : ∀ q' ∈ t, q'.2.name ≠ aOwn := by
          intro q' hq' he
          refine hnd.1 ?_
          rw [hqa, ← he]
          exact List.mem_map_of_mem (fun q => q.2.name) hq'
        have ihl := sumAreas_map_loser t hnd.2 hna hl'
        rw [List.map_cons, hfq, sumAreas_cons, sumAreas_cons]
        have hlen : ((q.1, { q.2 with areas := q.2.areas ++ [d] }) :
            String × Player).2.areas.length = q.2.areas.length + 1 := by
          simp
        omega
      · have hfq : attackAreasUpdate dOwn aOwn d q = q := by
          unfold attackAreasUpdate
          rw [if_neg hq1, if_neg hqa]
        have hl' : ∃ q' ∈ t, q'.2.name = dOwn ∧ d ∈ q'.2.areas := by
          rcases hl with ⟨q', hq', hqn⟩
          rcases List.mem_cons.1 hq' with rfl | hq'
          · exact absurd hqn hq1
          · exact ⟨q', hq', hqn⟩
        have hw' : ∃ q' ∈ t, q'.2.name = aOwn := by
          rcases hw with ⟨q', hq', hqn⟩
          rcases List.mem_cons.1 hq' with rfl | hq'
          · exact absurd hqn hqa
          · exact ⟨q', hq', hqn⟩
        have ih := sumAreas_map_attack hne t hnd.2 hl' hw'
        rw [List.map_cons, hfq, sumAreas_cons, sumAreas_cons, ih]

/-- C2 (amended): immediately after a successful `start_game` on the
42-country template the players' `areas` lists together hold 42 names, and an
attack command conserves that total whenever the two territories' pre-attack
owners differ: an attacker win moves the defender territory from the losing
player's list to the winning player's, a defender-win draw changes no `areas`
list at all, and a failed attack leaves the whole session unchanged.  When
the attacker and defender territories share one owner, however, an attacker
win removes the defender territory from that player's list without
re-appending it, so the total drops below 42. -/
theorem C2_territory_count_conservation :
    (∀ (gm : GameManager) (gid : String) (game : GameState)
       (shuffled : List String) (draw : Nat → Int),
      dictGet gm.games gid = some game →
      game.countries = defaultCountries →
      2 ≤ game.players.length →
      game.started = false →
      (∀ q ∈ game.players, q.2.areas = []) →
      shuffled.Perm (countryNames defaultCountries) →
      ∃ g', dictGet (start_game gm gid shuffled draw).1.games gid = some g' ∧
        sumAreas g'.players = 42) ∧
    (∀ (g : GameState) (cid a d : String) (ia idd : Nat) (ca cd : Country),
      scanCountries a d g.countries = (some (ia, ca), some (idd, cd)) →
      1 < ca.army →
      ca.owner ≠ cd.owner →
      (playerNameList g.players).Nodup →
      (∃ q ∈ g.players, q.2.name = cd.owner ∧ d ∈ q.2.areas) →
      (∃ q ∈ g.players, q.2.name = ca.owner) →
      sumAreas (attack_command g cid a d true).1.players = sumAreas g.players) ∧
    (∀ (g : GameState) (cid a d : String),
      (attack_command g cid a d false).1.players = g.players) ∧
    (∀ (g : GameState) (cid a d : String) (win : Bool),
      (handle_attack g a d win).2.success = false →
      (attack_command g cid a d win).1 = g) := by
  refine ⟨?_, ?_, ?_, ?_⟩
  · intro gm gid game shuffled draw hg hc hp hs ha hperm
    rw [start_game_reduces shuffled draw hg hp hs]
    refine ⟨_, dictGet_dictInsert_self _ _ _, ?_⟩
    have hsub : ∀ y ∈ shuffled, y ∈ game.countries.map (fun c => c.name) := by
      intro y hy
      rw [hc]
      exact hperm.mem_iff.1 hy
    have hlen1 : (setupPlayers 0 game.players).length = game.players.length :=
      setupPlayers_length _ _
    have hps1ne : setupPlayers 0 game.players ≠ [] := by
      intro h
      rw [h] at hlen1
      simp only [List.length_nil] at hlen1
      omega
    have hms := distribute_areasMultiset draw shuffled 0 (setupPlayers 0 game.players)
      game.countries hps1ne hsub
    have hz : areasMultiset (setupPlayers 0 game.players) = 0 :=
      areasMultiset_eq_zero (setupPlayers_areas_nil ha 0)
    show sumAreas (distribute draw 0 shuffled (setupPlayers 0 game.players)
      game.countries).1 = 42
    rw [sumAreas_eq_card, hms, hz, zero_add, Multiset.coe_card, hperm.length_eq]
    decide
  · intro g cid a d ia idd ca cd hscan harmy hne hnames hl hw
    by_cases hcur : g.current_player_id = cid
    · have hred : handle_attack g a d true =
          ({ g with
              players := g.players.map (attackAreasUpdate cd.owner ca.owner d),
              countries := ((g.countries.set ia
                  { ca with army := max 1 (Int.fdiv (ca.army + cd.army) 2) }).set idd
                { cd with
                    owner := ca.owner, color := ca.color,
                    army := ca.army + cd.army - max 1 (Int.fdiv (ca.army + cd.army) 2) }) },
           ⟨true, "attacker", a ++ " conquered " ++ d⟩) := by
        simp only [handle_attack, hscan]
        rw [if_neg (not_le.2 harmy)]
        rfl
      simp only [attack_command, if_pos hcur]
      rw [hred]
      exact sumAreas_map_attack hne g.players hnames hl hw
    · simp only [attack_command, if_neg hcur]
  · intro g cid a d
    by_cases hcur : g.current_player_id = cid
    · rcases hscan : scanCountries a d g.countries with ⟨o1, o2⟩
      cases o1 with
      | none => simp [attack_command, handle_attack, hscan, hcur]
      | some p =>
        cases o2 with
        | none => simp [attack_command, handle_attack, hscan, hcur]
        | some p2 =>
          rcases p with ⟨ia, ca⟩
          rcases p2 with ⟨idd, cd⟩
          by_cases harmy : ca.army ≤ 1
          · simp [attack_command, handle_attack, hscan, hcur, harmy]
          · simp [attack_command, handle_attack, hscan, hcur, harmy]
    · simp [attack_command, hcur]
  · intro g cid a d win hfail
    by_cases hcur : g.current_player_id = cid
    · simp only [attack_command, if_pos hcur]
      exact handle_attack_failure_state g a d win hfail
    · simp only [attack_command, if_neg hcur]

/-- C2 as frozen is false on the self-owned case it explicitly includes:
`testG1` starts with 42 distributed territories and both `indonesia` and
`eastern_australia` owned by Alice, yet after her attack command between the
two (an attacker-win draw) the players' lists hold only 41 names. -/
theorem C2_counterexample :
    sumAreas testG1.players = 42 ∧
    testG1.current_player_id = "p0" ∧
    ((scanCountries "indonesia" "eastern_australia" testG1.countries).1.map
        (fun p => p.2.owner) = some "Alice") ∧
    ((scanCountries "indonesia" "eastern_australia" testG1.countries).2.map
        (fun p => p.2.owner) = some "Alice") ∧
    sumAreas testG2.players = 41 := by
  refine ⟨by decide, by decide, by decide, by decide, by decide⟩

theorem C2_witness :
    (dictGet testGM0.games "g" = some testGame0 ∧
      testGame0.countries = defaultCountries ∧
      2 ≤ testGame0.players.length ∧
      testGame0.started = false ∧
      (∀ q ∈ testGame0.players, q.2.areas = []) ∧
      testShuffle.Perm (countryNames defaultCountries) ∧
      ∃ g', dictGet (start_game testGM0 "g" testShuffle (fun _ => 2)).1.games "g" =
        some g' ∧ sumAreas g'.players = 42) ∧
    (scanCountries "c1" "c2" duelGame.countries =
        (some (0, duelC1), some (1, duelC2)) ∧
      (1 : Int) < duelC1.army ∧ duelC1.owner ≠ duelC2.owner ∧
      (playerNameList duelGame.players).Nodup ∧
      sumAreas (attack_command duelGame "r0" "c1" "c2" true).1.players =
        sumAreas duelGame.players) ∧
    ((attack_command duelGame "r0" "c1" "c2" false).1.players = duelGame.players) ∧
    ((handle_attack duelGame "zz" "c2" true).2.success = false ∧
      (attack_command duelGame "r0" "zz" "c2" true).1 = duelGame) := by
  refine ⟨⟨rfl, rfl, by decide, rfl, by decide, List.Perm.refl _, ?_⟩,
    ⟨by decide, by decide, by decide, by decide, ?_⟩, ?_, ⟨by decide, ?_⟩⟩
  · exact C2_territory_count_conservation.1 testGM0 "g" testGame0 testShuffle
      (fun _ => 2) rfl rfl (by decide) rfl (by decide) (List.Perm.refl _)
  · exact C2_territory_count_conservation.2.1 duelGame "r0" "c1" "c2" 0 1 duelC1 duelC2
      (by decide) (by decide) (by decide) (by decide)
      ⟨("r1", bluePlayer), by decide, by decide, by decide⟩
      ⟨("r0", redPlayer), by decide, by decide⟩
  · exact C2_territory_count_conservation.2.2.1 duelGame "r0" "c1" "c2"
  · exact C2_territory_count_conservation.2.2.2 duelGame "r0" "zz" "c2" true (by decide)
